import Mathlib

/-!
# Simplified DES (`sdes.c`): embedding and verification

The C program works on heap arrays of `int`.  An array is embedded as a
`List Int`; a buffer that is still being filled is a list of cells, each
either written (`some v`) or not yet written (`none`).  Every operation that C
leaves undefined (a read or write outside the array, a read of a cell that was
never written, a table index out of range) is reported as a fault, so all
functions return in `Except Fault`.
-/

namespace SDES

/-! ## Memory model -/

/-- The one way a computation can go wrong: it does something C leaves
undefined. -/
inductive Fault
  | undefinedBehaviour
  deriving DecidableEq, Repr

/-- Results of the embedded functions. -/
abbrev Res := Except Fault

deriving instance DecidableEq for Except

/-- A defined value, or a fault when there is none. -/
def ofOption {α : Type} : Option α → Res α
  | some v => .ok v
  | none => .error .undefinedBehaviour

/-- A block obtained from `malloc`, with one cell per `int`. -/
abbrev Buf := List (Option Int)

/-- The call `malloc(sizeof(int) * n)`: `n` cells, none of them written. -/
def malloc (n : Nat) : Buf := List.replicate n none

/-- The assignment `p[i] = v`; undefined outside the block. -/
def write (p : Buf) (i : Nat) (v : Int) : Res Buf :=
  if i < p.length then .ok (p.set i (some v)) else .error .undefinedBehaviour

/-- The contents of a block as an array of `int`; undefined when a cell was
never written. -/
def contents : Buf → Res (List Int)
  | [] => .ok []
  | none :: _ => .error .undefinedBehaviour
  | some v :: rest => do pure (v :: (← contents rest))

/-- The read `a[i]` of an array; undefined outside the array. -/
def rd (a : List Int) (i : Nat) : Res Int := ofOption a[i]?

/-- The loop `for (i = start; i < start + count; i++) body`, threading the
state `s` through `count` iterations. -/
def forLoop {σ : Type} (body : Nat → σ → Res σ) : Nat → Nat → σ → Res σ
  | 0, _, s => .ok s
  | count + 1, i, s => body i s >>= forLoop body count (i + 1)

/-! ## Declarations -/

/-- The table `S0`. -/
def S0 : List (List Int) :=
  [[1, 0, 3, 2],
   [3, 2, 1, 0],
   [0, 2, 1, 3],
   [3, 1, 3, 2]]

/-- The table `S1`. -/
def S1 : List (List Int) :=
  [[0, 1, 2, 3],
   [2, 0, 1, 3],
   [3, 0, 1, 0],
   [2, 1, 0, 3]]

/-- The read `S[r][c]` of a two-dimensional table; undefined when an index is
negative or past the end of its dimension. -/
def index2 (S : List (List Int)) (r c : Int) : Res Int :=
  if 0 ≤ r ∧ 0 ≤ c then ofOption (S[r.toNat]? >>= fun row => row[c.toNat]?)
  else .error .undefinedBehaviour

/-! ## Permutations -/

/-- The function `initialPermutation` of `sdes.c`. -/
def initialPermutation (plaintext : List Int) : Res (List Int) := do
  let IP := malloc 8
  let IP ← write IP 0 (← rd plaintext 1)
  let IP ← write IP 1 (← rd plaintext 5)
  let IP ← write IP 2 (← rd plaintext 2)
  let IP ← write IP 3 (← rd plaintext 0)
  let IP ← write IP 4 (← rd plaintext 3)
  let IP ← write IP 5 (← rd plaintext 7)
  let IP ← write IP 6 (← rd plaintext 4)
  let IP ← write IP 7 (← rd plaintext 6)
  contents IP

/-- The function `finalPermutation` of `sdes.c`. -/
def finalPermutation (array : List Int) : Res (List Int) := do
  let FP := malloc 8
  let FP ← write FP 0 (← rd array 3)
  let FP ← write FP 1 (← rd array 0)
  let FP ← write FP 2 (← rd array 2)
  let FP ← write FP 3 (← rd array 4)
  let FP ← write FP 4 (← rd array 6)
  let FP ← write FP 5 (← rd array 1)
  let FP ← write FP 6 (← rd array 7)
  let FP ← write FP 7 (← rd array 5)
  contents FP

/-- The function `expansionPermutation` of `sdes.c`. -/
def expansionPermutation (array : List Int) : Res (List Int) := do
  let EP := malloc 8
  let EP ← write EP 0 (← rd array 3)
  let EP ← write EP 1 (← rd array 0)
  let EP ← write EP 2 (← rd array 1)
  let EP ← write EP 3 (← rd array 2)
  let EP ← write EP 4 (← rd array 1)
  let EP ← write EP 5 (← rd array 2)
  let EP ← write EP 6 (← rd array 3)
  let EP ← write EP 7 (← rd array 0)
  contents EP

/-- The function `P4` of `sdes.c`. -/
def P4 (array : List Int) : Res (List Int) := do
  let p := malloc 4
  let p ← write p 0 (← rd array 1)
  let p ← write p 1 (← rd array 3)
  let p ← write p 2 (← rd array 2)
  let p ← write p 3 (← rd array 0)
  contents p

/-- The function `P8` of `sdes.c`. -/
def P8 (array : List Int) : Res (List Int) := do
  let p := malloc 8
  let p ← write p 0 (← rd array 5)
  let p ← write p 1 (← rd array 2)
  let p ← write p 2 (← rd array 6)
  let p ← write p 3 (← rd array 3)
  let p ← write p 4 (← rd array 7)
  let p ← write p 5 (← rd array 4)
  let p ← write p 6 (← rd array 9)
  let p ← write p 7 (← rd array 8)
  contents p

/-- The function `P10` of `sdes.c`. -/
def P10 (array : List Int) : Res (List Int) := do
  let p := malloc 10
  let p ← write p 0 (← rd array 2)
  let p ← write p 1 (← rd array 4)
  let p ← write p 2 (← rd array 1)
  let p ← write p 3 (← rd array 6)
  let p ← write p 4 (← rd array 3)
  let p ← write p 5 (← rd array 9)
  let p ← write p 6 (← rd array 0)
  let p ← write p 7 (← rd array 8)
  let p ← write p 8 (← rd array 7)
  let p ← write p 9 (← rd array 5)
  contents p

/-- The function `leftShift` of `sdes.c`. -/
def leftShift (array : List Int) : Res (List Int) := do
  let p := malloc 5
  let p ← write p 0 (← rd array 1)
  let p ← write p 1 (← rd array 2)
  let p ← write p 2 (← rd array 3)
  let p ← write p 3 (← rd array 4)
  let p ← write p 4 (← rd array 0)
  contents p

/-! ## Array helpers -/

/-- The function `switchArray` of `sdes.c`.  The loop state is the block `p` and the read
index `i`. -/
def switchArray (array : List Int) (size : Nat) : Res (List Int) := do
  let p := malloc size
  let i := 0 + size / 2
  let (p, _) ← forLoop (fun k (s : Buf × Nat) => do
      let p ← write s.1 k (← rd array (s.2 % size))
      pure (p, s.2 + 1)) size 0 (p, i)
  contents p

/-- The function `splitArray` of `sdes.c`.  The loop state is the block `newArray` and the
read index `j`. -/
def splitArray (array : List Int) (size : Nat) (left : Int) : Res (List Int) := do
  let i := size / 2
  let j := if left = 0 then i else 0
  let newArray := malloc i
  let (newArray, _) ← forLoop (fun _ (s : Buf × Nat) => do
      let newArray ← write s.1 (s.2 % i) (← rd array (s.2))
      pure (newArray, s.2 + 1)) i 0 (newArray, j)
  contents newArray

/-- The function `mergeArrays` of `sdes.c`: the first loop runs `i` over `[0, s1)`, the
second continues over `[s1, s1 + s2)`. -/
def mergeArrays (a1 : List Int) (s1 : Nat) (a2 : List Int) (s2 : Nat) :
    Res (List Int) := do
  let a := malloc (s1 + s2)
  let a ← forLoop (fun i (a : Buf) => do write a i (← rd a1 i)) s1 0 a
  let a ← forLoop (fun i (a : Buf) => do write a i (← rd a2 (i - s1))) s2 s1 a
  contents a

/-- The value stored by one iteration of `XOR_Arrays`, for the operands
`a[i] = x` and `b[i] = y`. -/
def xorCell (x y : Int) : Int :=
  if (x ≠ 0 ∧ y ≠ 0) ∨ (x = 0 ∧ y = 0) then 0 else 1

/-- The function `XOR_Arrays` of `sdes.c`. -/
def XOR_Arrays (a b : List Int) (size : Nat) : Res (List Int) := do
  let p := malloc size
  let p ← forLoop (fun i (p : Buf) => do
      write p i (xorCell (← rd a i) (← rd b i))) size 0 p
  contents p

/-! ## Number conversion -/

/-- The `while (n != 0)` loop of `convertBinaryToDecimal`, run for at most
`fuel` iterations; a fault when the fuel is used up before the loop ends.
`remainder*pow(2,i)` is a product of doubles that is exact for every `int`
argument (at most ten iterations, `|remainder| ≤ 9`), so it is computed on
integers; `%` and `/` truncate toward zero. -/
def convertBinaryToDecimalLoop : Nat → Int → Int → Nat → Res Int
  | 0, _, _, _ => .error .undefinedBehaviour
  | fuel + 1, n, decimalNumber, i =>
    if n ≠ 0 then
      let remainder := n.tmod 10
      convertBinaryToDecimalLoop fuel (n.tdiv 10) (decimalNumber + remainder * 2 ^ i) (i + 1)
    else .ok decimalNumber

/-- The function `convertBinaryToDecimal` of `sdes.c`.  Each iteration divides `n` by ten,
so `|n| + 1` iterations are enough. -/
def convertBinaryToDecimal (n : Int) : Res Int :=
  convertBinaryToDecimalLoop (n.natAbs + 1) n 0 0

/-- One `switch` of `convertDecimalToBinary`: the two cells it writes, or
nothing when no `case` matches. -/
def switchCase (p : Buf) (at0 : Nat) (x : Int) : Res Buf :=
  if x = 0 then write p at0 0 >>= fun p => write p (at0 + 1) 0
  else if x = 1 then write p at0 0 >>= fun p => write p (at0 + 1) 1
  else if x = 2 then write p at0 1 >>= fun p => write p (at0 + 1) 0
  else if x = 3 then write p at0 1 >>= fun p => write p (at0 + 1) 1
  else .ok p

/-- The function `convertDecimalToBinary` of `sdes.c`. -/
def convertDecimalToBinary (x y : Int) : Res (List Int) := do
  let result := malloc 4
  let result ← switchCase result 0 x
  let result ← switchCase result 2 y
  contents result

/-! ## S-boxes and the round function -/

/-- The row and column `convertBinaryToDecimal(X)`, `convertBinaryToDecimal(Y)`
that `s_box` uses to index its table. -/
def s_box_indices (array : List Int) : Res (Int × Int) := do
  let X := (← rd array 0) * 10 + (← rd array 3)
  let Y := (← rd array 1) * 10 + (← rd array 2)
  pure (← convertBinaryToDecimal X, ← convertBinaryToDecimal Y)

/-- The function `s_box` of `sdes.c`. -/
def s_box (array : List Int) (left : Int) : Res Int := do
  let (row, col) ← s_box_indices array
  if left ≠ 0 then index2 S0 row col else index2 S1 row col

/-- The function `function_with_key` of `sdes.c`. -/
def function_with_key (array key : List Int) (first : Int) : Res (List Int) := do
  let p ← P10 key
  let p ← mergeArrays (← leftShift (← splitArray p 10 1)) 5
                      (← leftShift (← splitArray p 10 0)) 5
  let p ← if first = 0 then do
      mergeArrays (← leftShift (← leftShift (← splitArray p 10 1))) 5
                  (← leftShift (← leftShift (← splitArray p 10 0))) 5
    else pure p
  let k ← P8 p
  let L1 ← splitArray array 8 1
  let R1 ← splitArray array 8 0
  let xor ← XOR_Arrays (← expansionPermutation R1) k 8
  let L2 ← splitArray xor 8 1
  let R2 ← splitArray xor 8 0
  let temp ← XOR_Arrays (← P4 (← convertDecimalToBinary (← s_box L2 1) (← s_box R2 0))) L1 4
  mergeArrays temp 4 R1 4

/-- The array `result` computed by `main` from `plaintext` and `key`. -/
def mainResult (plaintext key : List Int) : Res (List Int) := do
  finalPermutation (← function_with_key (← switchArray (← function_with_key
    (← initialPermutation plaintext) key 1) 8) key 0)

/-! ## The specification's operations (spec.md §4)

Pure list functions written from the words of the specification, to compare
the embedded code with. -/

namespace Spec

/-- The operation `apply(table, input)`: `output[i] = input[table[i]]`, one output per
table entry. -/
def apply (table : List Nat) (input : List Int) : List Int :=
  table.map (fun i => input.getD i 0)

/-- The table IP(8→8). -/
def tableIP : List Nat := [1, 5, 2, 0, 3, 7, 4, 6]
/-- The table FP(8→8). -/
def tableFP : List Nat := [3, 0, 2, 4, 6, 1, 7, 5]
/-- The table EP(4→8). -/
def tableEP : List Nat := [3, 0, 1, 2, 1, 2, 3, 0]
/-- The table P4(4→4). -/
def tableP4 : List Nat := [1, 3, 2, 0]
/-- The table P8(10→8). -/
def tableP8 : List Nat := [5, 2, 6, 3, 7, 4, 9, 8]
/-- The table P10(10→10). -/
def tableP10 : List Nat := [2, 4, 1, 6, 3, 9, 0, 8, 7, 5]

/-- The operation `split(block, leftHalf)`: the first half if `leftHalf`, else the second
half. -/
def split (block : List Int) (leftHalf : Bool) : List Int :=
  if leftHalf then block.take (block.length / 2) else block.drop (block.length / 2)

/-- The operation `merge(a, b)`: concatenation. -/
def merge (a b : List Int) : List Int := a ++ b

/-- The operation `circularLeftShift1(half)`: `result[i] = half[(i+1) mod len]`. -/
def circularLeftShift1 (half : List Int) : List Int :=
  (List.range half.length).map (fun i => half.getD ((i + 1) % half.length) 0)

/-- The operation `halfSwap(block)`: the two halves of the block, swapped. -/
def halfSwap (block : List Int) : List Int :=
  merge (split block false) (split block true)

/-- The operation `xor(a, b)`: element-wise XOR of bit vectors. -/
def xor (a b : List Int) : List Int :=
  List.zipWith (fun x y => (x + y) % 2) a b

/-- The operation `lookup(nibble, which)`: the nibble is `(x1, y1, y2, x2)`, the row is the
value of `(x1 x2)` and the column the value of `(y1 y2)`. -/
def lookup (nibble : List Int) (S : List (List Int)) : Int :=
  let x1 := nibble.getD 0 0
  let y1 := nibble.getD 1 0
  let y2 := nibble.getD 2 0
  let x2 := nibble.getD 3 0
  (S.getD (2 * x1 + x2).toNat []).getD (2 * y1 + y2).toNat 0

/-- The 2-bit vector `[high, low]` of an integer in `[0,3]`. -/
def toBits (v : Int) : List Int := [v / 2, v % 2]

/-- The permuted key `P10(key)` with each 5-bit half rotated left by
`rotations` positions. -/
def rotatedKey (key10 : List Int) (rotations : Nat) : List Int :=
  let p := apply tableP10 key10
  merge (Nat.iterate circularLeftShift1 rotations (split p true))
        (Nat.iterate circularLeftShift1 rotations (split p false))

/-- The subkey `P8` of the permuted key with its halves rotated left by
`rotations` positions. -/
def subKey (key10 : List Int) (rotations : Nat) : List Int :=
  apply tableP8 (rotatedKey key10 rotations)

/-- Steps 2 to 9 of `roundFunction`: the Feistel round computed with a given
subkey. -/
def roundWithSubKey (block8 subkey : List Int) : List Int :=
  let L := split block8 true
  let R := split block8 false
  let expanded := apply tableEP R
  let mixed := xor expanded subkey
  let L2 := split mixed true
  let R2 := split mixed false
  let sLeft := lookup L2 S0
  let sRight := lookup R2 S1
  let pOut := apply tableP4 (toBits sLeft ++ toBits sRight)
  let newLeft := xor pOut L
  merge newLeft R

end Spec

/-! ## Bits -/

/-- A value in {0,1}. -/
def IsBit (x : Int) : Prop := x = 0 ∨ x = 1

instance (x : Int) : Decidable (IsBit x) := inferInstanceAs (Decidable (x = 0 ∨ x = 1))

/-- Every element of the array is in {0,1}. -/
def AllBits (a : List Int) : Prop := ∀ x ∈ a, IsBit x

instance (a : List Int) : Decidable (AllBits a) :=
  inferInstanceAs (Decidable (∀ x ∈ a, IsBit x))

/-- The array `[0, 1, ..., n-1]`, whose cell `j` holds its own index `j`. -/
def indexArray (n : Nat) : List Int := (List.range n).map Int.ofNat

/-- The input indices a permutation function reads, one per output position:
the function copies input cells to output cells, so on `indexArray n` it
returns at each output position the index of the cell it read. -/
def indicesRead (f : List Int → Res (List Int)) (n : Nat) : List Int :=
  match f (indexArray n) with
  | .ok t => t
  | .error _ => []

/-- For each index `j` of the domain `[0, n)`, the number of output positions
that read it. -/
def readCounts (f : List Int → Res (List Int)) (n : Nat) : List Nat :=
  (List.range n).map (fun j => (indicesRead f n).count (Int.ofNat j))

/-- The round of `function_with_key` in closed form, for a block and the
subkey `K`: as `Spec.roundWithSubKey`, with the XOR of the code. -/
def roundValue (array K : List Int) : List Int :=
  let m := List.zipWith xorCell (Spec.apply Spec.tableEP (array.drop 4)) K
  let s := Spec.toBits (Spec.lookup (m.take 4) S0) ++ Spec.toBits (Spec.lookup (m.drop 4) S1)
  List.zipWith xorCell (Spec.apply Spec.tableP4 s) (array.take 4) ++ array.drop 4

/-- The pipeline of `main` with the two rounds in the opposite order: the same
functions, `function_with_key` called with the flag 0 first and the flag 1
second. -/
def inverseResult (ciphertext key : List Int) : Res (List Int) := do
  finalPermutation (← function_with_key (← switchArray (← function_with_key
    (← initialPermutation ciphertext) key 0) 8) key 1)

/-! ## The command line -/

/-- How the program stops before `main` returns: a call `exit(code)`, or a
fault (an operation C leaves undefined). -/
inductive Halt
  | exit (code : Int)
  | fault
  deriving DecidableEq, Repr

/-- Results of the code that may call `exit`. -/
abbrev Proc := Except Halt

/-- A C string: its characters before the terminating NUL, one `Char` per
`char`. -/
abbrev CString := List Char

/-- The function `strlen` of the C library. -/
def strlen (s : CString) : Nat := s.length

/-- The function `isdigit` of the C library: true on the ten characters `0` to
`9` only. -/
def isdigit (c : Char) : Bool := c.isDigit

/-- The read `s[i]` of a string: a character, the terminating NUL at the
length, a fault past it. -/
def charAt (s : CString) (i : Nat) : Proc Char :=
  if i < s.length then .ok (s.getD i (Char.ofNat 0))
  else if i = s.length then .ok (Char.ofNat 0)
  else .error .fault

/-- The value of the C expression `c - '0'`. -/
def minusZero (c : Char) : Int := (c.toNat : Int) - (('0').toNat : Int)

/-- The read `argv[i]`. -/
def argvAt (argv : List CString) (i : Nat) : Proc CString :=
  match argv[i]? with
  | some s => .ok s
  | none => .error .fault

/-- The read `a[i]` of an `int` array in code that may call `exit`. -/
def intAt (a : List Int) (i : Nat) : Proc Int :=
  match a[i]? with
  | some v => .ok v
  | none => .error .fault

/-- The assignment `a[i] = v` to an `int` array of the caller. -/
def assign (a : List Int) (i : Nat) (v : Int) : Proc (List Int) :=
  if i < a.length then .ok (a.set i v) else .error .fault

/-- The loop `for (i = start; i < start + count; i++) body` in code that may
call `exit`. -/
def forLoopProc {σ : Type} (body : Nat → σ → Proc σ) : Nat → Nat → σ → Proc σ
  | 0, _, s => .ok s
  | count + 1, i, s => body i s >>= forLoopProc body count (i + 1)

/-- The body of the loop of `readArguments` for the index `i`; the state is
the pair of the arrays `plaintext` and `key`.  `&&` and `||` evaluate their
right operand only when the left one does not decide. -/
def readArgumentsBody (temp1 temp2 : CString) (i : Nat) (s : List Int × List Int) :
    Proc (List Int × List Int) := do
  -- Check type integer
  let noDigit1 ← if i < 8 then (do pure (!isdigit (← charAt temp1 i))) else pure false
  let noDigit ← if noDigit1 then pure true else (do pure (!isdigit (← charAt temp2 i)))
  if noDigit then .error (.exit 2) else
  -- Convert to integers
  let plaintext ← if i < 8 then (do assign s.1 i (minusZero (← charAt temp1 i))) else pure s.1
  let key ← assign s.2 i (minusZero (← charAt temp2 i))
  -- Check data
  let badData1 ← if i < 8 then
      (do
        let v ← intAt plaintext i
        if v ≠ 0 then (do pure (decide ((← intAt plaintext i) ≠ 1))) else pure false)
    else pure false
  let badData ← if badData1 then pure true else
      (do
        let v ← intAt key i
        if v ≠ 0 then (do pure (decide ((← intAt key i) ≠ 1))) else pure false)
  if badData then .error (.exit 3) else
  pure (plaintext, key)

/-- The function `readArguments` of `sdes.c`; it returns the arrays
`plaintext` and `key` as it leaves them. -/
def readArguments (plaintext key : List Int) (argc : Int) (argv : List CString) :
    Proc (List Int × List Int) := do
  -- Check for 2 arguments
  if argc = 3 then
    let temp1 ← argvAt argv 1
    let temp2 ← argvAt argv 2
    -- Check for size
    if strlen temp1 ≠ 8 ∨ strlen temp2 ≠ 10 then .error (.exit 1) else
    -- Check arguments type, size and data
    forLoopProc (readArgumentsBody temp1 temp2) 10 0 (plaintext, key)
  else if argc ≠ 1 then .error (.exit 1)
  else pure (plaintext, key)

/-- The character is `0` or `1`. -/
def IsBitChar (c : Char) : Prop := c = '0' ∨ c = '1'

instance (c : Char) : Decidable (IsBitChar c) :=
  inferInstanceAs (Decidable (c = '0' ∨ c = '1'))

/-- At index `i` the characters that `readArguments` looks at (the one of the
plaintext string when `i < 8`, the one of the key string) are `0` or `1`. -/
def GoodAt (temp1 temp2 : CString) (i : Nat) : Prop :=
  (i < 8 → IsBitChar (temp1.getD i (Char.ofNat 0))) ∧ IsBitChar (temp2.getD i (Char.ofNat 0))

/-- At index `i` one of the characters that `readArguments` looks at is not a
digit. -/
def NoDigitAt (temp1 temp2 : CString) (i : Nat) : Prop :=
  (i < 8 ∧ isdigit (temp1.getD i (Char.ofNat 0)) = false) ∨
    isdigit (temp2.getD i (Char.ofNat 0)) = false

instance (temp1 temp2 : CString) (i : Nat) : Decidable (GoodAt temp1 temp2 i) :=
  inferInstanceAs (Decidable (_ ∧ _))

instance (temp1 temp2 : CString) (i : Nat) : Decidable (NoDigitAt temp1 temp2 i) :=
  inferInstanceAs (Decidable (_ ∨ _))

/-- The arrays after the two assignments of iteration `i` of the loop of
`readArguments`. -/
def stored (temp1 temp2 : CString) (i : Nat) (s : List Int × List Int) :
    List Int × List Int :=
  (if i < 8 then s.1.set i (minusZero (temp1.getD i (Char.ofNat 0))) else s.1,
   s.2.set i (minusZero (temp2.getD i (Char.ofNat 0))))

/-- The arrays after the assignments of `count` iterations from index `i`. -/
def storedAll (temp1 temp2 : CString) : Nat → Nat → List Int × List Int → List Int × List Int
  | 0, _, s => s
  | count + 1, i, s => storedAll temp1 temp2 count (i + 1) (stored temp1 temp2 i s)

/-! ## Evaluation lemmas -/

theorem pure_eq_ok {α : Type} (a : α) : (pure a : Res α) = Except.ok a := rfl

theorem ok_bind {α β : Type} (a : α) (f : α → Res β) : (Except.ok a >>= f) = f a := rfl

theorem error_bind {α β : Type} (e : Fault) (f : α → Res β) :
    ((Except.error e : Res α) >>= f) = Except.error e := rfl

theorem eq_of_length_4 {l : List Int} (h : l.length = 4) :
    ∃ a0 a1 a2 a3, l = [a0, a1, a2, a3] := by
  match l, h with
  | [a0, a1, a2, a3], _ => exact ⟨a0, a1, a2, a3, rfl⟩

theorem eq_of_length_8 {l : List Int} (h : l.length = 8) :
    ∃ a0 a1 a2 a3 a4 a5 a6 a7, l = [a0, a1, a2, a3, a4, a5, a6, a7] := by
  match l, h with
  | [a0, a1, a2, a3, a4, a5, a6, a7], _ => exact ⟨a0, a1, a2, a3, a4, a5, a6, a7, rfl⟩

theorem eq_of_length_10 {l : List Int} (h : l.length = 10) :
    ∃ a0 a1 a2 a3 a4 a5 a6 a7 a8 a9, l = [a0, a1, a2, a3, a4, a5, a6, a7, a8, a9] := by
  match l, h with
  | [a0, a1, a2, a3, a4, a5, a6, a7, a8, a9], _ =>
    exact ⟨a0, a1, a2, a3, a4, a5, a6, a7, a8, a9, rfl⟩

theorem initialPermutation_eq (a0 a1 a2 a3 a4 a5 a6 a7 : Int) :
    initialPermutation [a0, a1, a2, a3, a4, a5, a6, a7]
      = .ok [a1, a5, a2, a0, a3, a7, a4, a6] := rfl

theorem finalPermutation_eq (a0 a1 a2 a3 a4 a5 a6 a7 : Int) :
    finalPermutation [a0, a1, a2, a3, a4, a5, a6, a7]
      = .ok [a3, a0, a2, a4, a6, a1, a7, a5] := rfl

theorem expansionPermutation_eq (a0 a1 a2 a3 : Int) :
    expansionPermutation [a0, a1, a2, a3] = .ok [a3, a0, a1, a2, a1, a2, a3, a0] := rfl

theorem P4_eq (a0 a1 a2 a3 : Int) : P4 [a0, a1, a2, a3] = .ok [a1, a3, a2, a0] := rfl

theorem P8_eq (a0 a1 a2 a3 a4 a5 a6 a7 a8 a9 : Int) :
    P8 [a0, a1, a2, a3, a4, a5, a6, a7, a8, a9] = .ok [a5, a2, a6, a3, a7, a4, a9, a8] := rfl

theorem P10_eq (a0 a1 a2 a3 a4 a5 a6 a7 a8 a9 : Int) :
    P10 [a0, a1, a2, a3, a4, a5, a6, a7, a8, a9]
      = .ok [a2, a4, a1, a6, a3, a9, a0, a8, a7, a5] := rfl

theorem leftShift_eq (a0 a1 a2 a3 a4 : Int) :
    leftShift [a0, a1, a2, a3, a4] = .ok [a1, a2, a3, a4, a0] := rfl

theorem switchArray_8 (a0 a1 a2 a3 a4 a5 a6 a7 : Int) :
    switchArray [a0, a1, a2, a3, a4, a5, a6, a7] 8
      = .ok [a4, a5, a6, a7, a0, a1, a2, a3] := by
  with_unfolding_all rfl

theorem splitArray_10_left (a0 a1 a2 a3 a4 a5 a6 a7 a8 a9 : Int) :
    splitArray [a0, a1, a2, a3, a4, a5, a6, a7, a8, a9] 10 1 = .ok [a0, a1, a2, a3, a4] := by
  with_unfolding_all rfl

theorem splitArray_10_right (a0 a1 a2 a3 a4 a5 a6 a7 a8 a9 : Int) :
    splitArray [a0, a1, a2, a3, a4, a5, a6, a7, a8, a9] 10 0 = .ok [a5, a6, a7, a8, a9] := by
  with_unfolding_all rfl

theorem splitArray_8_left (a0 a1 a2 a3 a4 a5 a6 a7 : Int) :
    splitArray [a0, a1, a2, a3, a4, a5, a6, a7] 8 1 = .ok [a0, a1, a2, a3] := by
  with_unfolding_all rfl

theorem splitArray_8_right (a0 a1 a2 a3 a4 a5 a6 a7 : Int) :
    splitArray [a0, a1, a2, a3, a4, a5, a6, a7] 8 0 = .ok [a4, a5, a6, a7] := by
  with_unfolding_all rfl

theorem mergeArrays_5 (a0 a1 a2 a3 a4 c0 c1 c2 c3 c4 : Int) :
    mergeArrays [a0, a1, a2, a3, a4] 5 [c0, c1, c2, c3, c4] 5
      = .ok [a0, a1, a2, a3, a4, c0, c1, c2, c3, c4] := by
  with_unfolding_all rfl

theorem mergeArrays_4 (a0 a1 a2 a3 c0 c1 c2 c3 : Int) :
    mergeArrays [a0, a1, a2, a3] 4 [c0, c1, c2, c3] 4
      = .ok [a0, a1, a2, a3, c0, c1, c2, c3] := by
  with_unfolding_all rfl

theorem XOR_Arrays_8 (a0 a1 a2 a3 a4 a5 a6 a7 c0 c1 c2 c3 c4 c5 c6 c7 : Int) :
    XOR_Arrays [a0, a1, a2, a3, a4, a5, a6, a7] [c0, c1, c2, c3, c4, c5, c6, c7] 8
      = .ok [xorCell a0 c0, xorCell a1 c1, xorCell a2 c2, xorCell a3 c3,
             xorCell a4 c4, xorCell a5 c5, xorCell a6 c6, xorCell a7 c7] := by
  with_unfolding_all rfl

theorem XOR_Arrays_4 (a0 a1 a2 a3 c0 c1 c2 c3 : Int) :
    XOR_Arrays [a0, a1, a2, a3] [c0, c1, c2, c3] 4
      = .ok [xorCell a0 c0, xorCell a1 c1, xorCell a2 c2, xorCell a3 c3] := by
  with_unfolding_all rfl

theorem isBit_xorCell (x y : Int) : IsBit (xorCell x y) := by
  unfold xorCell IsBit
  split <;> simp

theorem xorCell_of_bits {x y : Int} (hx : IsBit x) (hy : IsBit y) :
    xorCell x y = (x + y) % 2 := by
  rcases hx with rfl | rfl <;> rcases hy with rfl | rfl <;> rfl

theorem s_box_indices_bits {x1 y1 y2 x2 : Int}
    (h1 : IsBit x1) (h2 : IsBit y1) (h3 : IsBit y2) (h4 : IsBit x2) :
    s_box_indices [x1, y1, y2, x2] = .ok (2 * x1 + x2, 2 * y1 + y2) := by
  rcases h1 with rfl | rfl <;> rcases h2 with rfl | rfl <;>
    rcases h3 with rfl | rfl <;> rcases h4 with rfl | rfl <;> rfl

theorem lookup_range {x1 y1 y2 x2 : Int}
    (h1 : IsBit x1) (h2 : IsBit y1) (h3 : IsBit y2) (h4 : IsBit x2) :
    (0 ≤ Spec.lookup [x1, y1, y2, x2] S0 ∧ Spec.lookup [x1, y1, y2, x2] S0 ≤ 3) ∧
    (0 ≤ Spec.lookup [x1, y1, y2, x2] S1 ∧ Spec.lookup [x1, y1, y2, x2] S1 ≤ 3) := by
  rcases h1 with rfl | rfl <;> rcases h2 with rfl | rfl <;>
    rcases h3 with rfl | rfl <;> rcases h4 with rfl | rfl <;> decide

theorem s_box_bits {x1 y1 y2 x2 : Int} (left : Int)
    (h1 : IsBit x1) (h2 : IsBit y1) (h3 : IsBit y2) (h4 : IsBit x2) :
    s_box [x1, y1, y2, x2] left
      = .ok (Spec.lookup [x1, y1, y2, x2] (if left ≠ 0 then S0 else S1)) := by
  unfold s_box
  rw [s_box_indices_bits h1 h2 h3 h4]
  simp only [ok_bind]
  split <;>
    rcases h1 with rfl | rfl <;> rcases h2 with rfl | rfl <;>
      rcases h3 with rfl | rfl <;> rcases h4 with rfl | rfl <;> rfl

theorem convertDecimalToBinary_eq {x y : Int} (hx : 0 ≤ x ∧ x ≤ 3) (hy : 0 ≤ y ∧ y ≤ 3) :
    convertDecimalToBinary x y = .ok (Spec.toBits x ++ Spec.toBits y) := by
  obtain ⟨hx0, hx3⟩ := hx
  obtain ⟨hy0, hy3⟩ := hy
  interval_cases x <;> interval_cases y <;> rfl

/-! ## The specification's operations on explicit arrays -/

theorem Spec.apply_P10 (a0 a1 a2 a3 a4 a5 a6 a7 a8 a9 : Int) :
    Spec.apply Spec.tableP10 [a0, a1, a2, a3, a4, a5, a6, a7, a8, a9]
      = [a2, a4, a1, a6, a3, a9, a0, a8, a7, a5] := rfl

theorem Spec.apply_P8 (a0 a1 a2 a3 a4 a5 a6 a7 a8 a9 : Int) :
    Spec.apply Spec.tableP8 [a0, a1, a2, a3, a4, a5, a6, a7, a8, a9]
      = [a5, a2, a6, a3, a7, a4, a9, a8] := rfl

theorem Spec.circularLeftShift1_5 (a0 a1 a2 a3 a4 : Int) :
    Spec.circularLeftShift1 [a0, a1, a2, a3, a4] = [a1, a2, a3, a4, a0] := by
  with_unfolding_all rfl

theorem Spec.split_10_left (a0 a1 a2 a3 a4 a5 a6 a7 a8 a9 : Int) :
    Spec.split [a0, a1, a2, a3, a4, a5, a6, a7, a8, a9] true = [a0, a1, a2, a3, a4] := by
  with_unfolding_all rfl

theorem Spec.split_10_right (a0 a1 a2 a3 a4 a5 a6 a7 a8 a9 : Int) :
    Spec.split [a0, a1, a2, a3, a4, a5, a6, a7, a8, a9] false = [a5, a6, a7, a8, a9] := by
  with_unfolding_all rfl

theorem Spec.split_8_left (a0 a1 a2 a3 a4 a5 a6 a7 : Int) :
    Spec.split [a0, a1, a2, a3, a4, a5, a6, a7] true = [a0, a1, a2, a3] := by
  with_unfolding_all rfl

theorem Spec.split_8_right (a0 a1 a2 a3 a4 a5 a6 a7 : Int) :
    Spec.split [a0, a1, a2, a3, a4, a5, a6, a7] false = [a4, a5, a6, a7] := by
  with_unfolding_all rfl

theorem Spec.rotatedKey_1 (a0 a1 a2 a3 a4 a5 a6 a7 a8 a9 : Int) :
    Spec.rotatedKey [a0, a1, a2, a3, a4, a5, a6, a7, a8, a9] 1
      = [a4, a1, a6, a3, a2, a0, a8, a7, a5, a9] := by
  simp only [Spec.rotatedKey, Spec.apply_P10, Spec.split_10_left, Spec.split_10_right,
    Function.iterate_succ, Function.iterate_zero, Function.comp, id,
    Spec.circularLeftShift1_5, Spec.merge, List.cons_append, List.nil_append]

theorem Spec.rotatedKey_2 (a0 a1 a2 a3 a4 a5 a6 a7 a8 a9 : Int) :
    Spec.rotatedKey [a0, a1, a2, a3, a4, a5, a6, a7, a8, a9] 2
      = [a1, a6, a3, a2, a4, a8, a7, a5, a9, a0] := by
  simp only [Spec.rotatedKey, Spec.apply_P10, Spec.split_10_left, Spec.split_10_right,
    Function.iterate_succ, Function.iterate_zero, Function.comp, id,
    Spec.circularLeftShift1_5, Spec.merge, List.cons_append, List.nil_append]

theorem Spec.rotatedKey_3 (a0 a1 a2 a3 a4 a5 a6 a7 a8 a9 : Int) :
    Spec.rotatedKey [a0, a1, a2, a3, a4, a5, a6, a7, a8, a9] 3
      = [a6, a3, a2, a4, a1, a7, a5, a9, a0, a8] := by
  simp only [Spec.rotatedKey, Spec.apply_P10, Spec.split_10_left, Spec.split_10_right,
    Function.iterate_succ, Function.iterate_zero, Function.comp, id,
    Spec.circularLeftShift1_5, Spec.merge, List.cons_append, List.nil_append]

theorem Spec.subKey_1 (a0 a1 a2 a3 a4 a5 a6 a7 a8 a9 : Int) :
    Spec.subKey [a0, a1, a2, a3, a4, a5, a6, a7, a8, a9] 1
      = [a0, a6, a8, a3, a7, a2, a9, a5] := by
  simp only [Spec.subKey, Spec.rotatedKey_1, Spec.apply_P8]

theorem Spec.subKey_2 (a0 a1 a2 a3 a4 a5 a6 a7 a8 a9 : Int) :
    Spec.subKey [a0, a1, a2, a3, a4, a5, a6, a7, a8, a9] 2
      = [a8, a3, a7, a2, a5, a4, a0, a9] := by
  simp only [Spec.subKey, Spec.rotatedKey_2, Spec.apply_P8]

theorem Spec.subKey_3 (a0 a1 a2 a3 a4 a5 a6 a7 a8 a9 : Int) :
    Spec.subKey [a0, a1, a2, a3, a4, a5, a6, a7, a8, a9] 3
      = [a7, a2, a5, a4, a9, a1, a8, a0] := by
  simp only [Spec.subKey, Spec.rotatedKey_3, Spec.apply_P8]

theorem roundValue_explicit (b0 b1 b2 b3 b4 b5 b6 b7 K0 K1 K2 K3 K4 K5 K6 K7 : Int) :
    roundValue [b0, b1, b2, b3, b4, b5, b6, b7] [K0, K1, K2, K3, K4, K5, K6, K7]
      = [xorCell (Spec.lookup [xorCell b7 K0, xorCell b4 K1, xorCell b5 K2, xorCell b6 K3] S0 % 2) b0,
         xorCell (Spec.lookup [xorCell b5 K4, xorCell b6 K5, xorCell b7 K6, xorCell b4 K7] S1 % 2) b1,
         xorCell (Spec.lookup [xorCell b5 K4, xorCell b6 K5, xorCell b7 K6, xorCell b4 K7] S1 / 2) b2,
         xorCell (Spec.lookup [xorCell b7 K0, xorCell b4 K1, xorCell b5 K2, xorCell b6 K3] S0 / 2) b3,
         b4, b5, b6, b7] := rfl

theorem Spec.apply_EP (a0 a1 a2 a3 : Int) :
    Spec.apply Spec.tableEP [a0, a1, a2, a3] = [a3, a0, a1, a2, a1, a2, a3, a0] := rfl

theorem Spec.xor_8 (a0 a1 a2 a3 a4 a5 a6 a7 c0 c1 c2 c3 c4 c5 c6 c7 : Int) :
    Spec.xor [a0, a1, a2, a3, a4, a5, a6, a7] [c0, c1, c2, c3, c4, c5, c6, c7]
      = [(a0 + c0) % 2, (a1 + c1) % 2, (a2 + c2) % 2, (a3 + c3) % 2,
         (a4 + c4) % 2, (a5 + c5) % 2, (a6 + c6) % 2, (a7 + c7) % 2] := rfl

theorem Spec.roundWithSubKey_explicit
    (b0 b1 b2 b3 b4 b5 b6 b7 K0 K1 K2 K3 K4 K5 K6 K7 : Int) :
    Spec.roundWithSubKey [b0, b1, b2, b3, b4, b5, b6, b7] [K0, K1, K2, K3, K4, K5, K6, K7]
      = [(Spec.lookup [(b7 + K0) % 2, (b4 + K1) % 2, (b5 + K2) % 2, (b6 + K3) % 2] S0 % 2 + b0) % 2,
         (Spec.lookup [(b5 + K4) % 2, (b6 + K5) % 2, (b7 + K6) % 2, (b4 + K7) % 2] S1 % 2 + b1) % 2,
         (Spec.lookup [(b5 + K4) % 2, (b6 + K5) % 2, (b7 + K6) % 2, (b4 + K7) % 2] S1 / 2 + b2) % 2,
         (Spec.lookup [(b7 + K0) % 2, (b4 + K1) % 2, (b5 + K2) % 2, (b6 + K3) % 2] S0 / 2 + b3) % 2,
         b4, b5, b6, b7] := by
  simp only [Spec.roundWithSubKey, Spec.split_8_left, Spec.split_8_right, Spec.apply_EP,
    Spec.xor_8]
  rfl

/-! ## The round function in closed form -/

theorem s_box_xorCell (a0 c0 a1 c1 a2 c2 a3 c3 left : Int) :
    s_box [xorCell a0 c0, xorCell a1 c1, xorCell a2 c2, xorCell a3 c3] left
      = .ok (Spec.lookup [xorCell a0 c0, xorCell a1 c1, xorCell a2 c2, xorCell a3 c3]
          (if left ≠ 0 then S0 else S1)) :=
  s_box_bits left (isBit_xorCell _ _) (isBit_xorCell _ _) (isBit_xorCell _ _)
    (isBit_xorCell _ _)

theorem convertDecimalToBinary_lookup (a0 c0 a1 c1 a2 c2 a3 c3 a4 c4 a5 c5 a6 c6 a7 c7 : Int) :
    convertDecimalToBinary
        (Spec.lookup [xorCell a0 c0, xorCell a1 c1, xorCell a2 c2, xorCell a3 c3] S0)
        (Spec.lookup [xorCell a4 c4, xorCell a5 c5, xorCell a6 c6, xorCell a7 c7] S1)
      = .ok (Spec.toBits
              (Spec.lookup [xorCell a0 c0, xorCell a1 c1, xorCell a2 c2, xorCell a3 c3] S0)
            ++ Spec.toBits
              (Spec.lookup [xorCell a4 c4, xorCell a5 c5, xorCell a6 c6, xorCell a7 c7] S1)) :=
  convertDecimalToBinary_eq
    (lookup_range (isBit_xorCell _ _) (isBit_xorCell _ _) (isBit_xorCell _ _)
      (isBit_xorCell _ _)).1
    (lookup_range (isBit_xorCell _ _) (isBit_xorCell _ _) (isBit_xorCell _ _)
      (isBit_xorCell _ _)).2

theorem s_box_xorCell_S0 (a0 c0 a1 c1 a2 c2 a3 c3 : Int) :
    s_box [xorCell a0 c0, xorCell a1 c1, xorCell a2 c2, xorCell a3 c3] 1
      = .ok (Spec.lookup [xorCell a0 c0, xorCell a1 c1, xorCell a2 c2, xorCell a3 c3] S0) :=
  s_box_xorCell a0 c0 a1 c1 a2 c2 a3 c3 1

theorem s_box_xorCell_S1 (a0 c0 a1 c1 a2 c2 a3 c3 : Int) :
    s_box [xorCell a0 c0, xorCell a1 c1, xorCell a2 c2, xorCell a3 c3] 0
      = .ok (Spec.lookup [xorCell a0 c0, xorCell a1 c1, xorCell a2 c2, xorCell a3 c3] S1) :=
  s_box_xorCell a0 c0 a1 c1 a2 c2 a3 c3 0

/-- On arrays of 8 and 10 elements `function_with_key` returns, and its result
is the round computed with the subkey that rotates each half of `P10(key)` once
when `first` is non-zero and three times when it is zero. -/
theorem function_with_key_explicit (b0 b1 b2 b3 b4 b5 b6 b7 : Int)
    (k0 k1 k2 k3 k4 k5 k6 k7 k8 k9 first : Int) :
    function_with_key [b0, b1, b2, b3, b4, b5, b6, b7]
        [k0, k1, k2, k3, k4, k5, k6, k7, k8, k9] first
      = .ok (roundValue [b0, b1, b2, b3, b4, b5, b6, b7]
          (Spec.subKey [k0, k1, k2, k3, k4, k5, k6, k7, k8, k9]
            (if first = 0 then 3 else 1))) := by
  by_cases h : first = 0
  · subst h
    simp only [function_with_key, P10_eq, splitArray_10_left, splitArray_10_right,
      leftShift_eq, ok_bind, mergeArrays_5, bind_assoc, pure_bind, if_true, P8_eq]
    simp only [splitArray_8_left, splitArray_8_right, expansionPermutation_eq,
      XOR_Arrays_8, ok_bind]
    simp only [s_box_xorCell_S0, s_box_xorCell_S1, ok_bind, convertDecimalToBinary_lookup]
    simp only [Spec.toBits, List.cons_append, List.nil_append, P4_eq, XOR_Arrays_4,
      mergeArrays_4, ok_bind, Spec.subKey_3, Spec.subKey_1, roundValue_explicit]
  · rw [if_neg h]
    simp only [function_with_key, P10_eq, splitArray_10_left, splitArray_10_right,
      leftShift_eq, ok_bind, mergeArrays_5, bind_assoc, pure_bind, if_neg h, P8_eq,
      pure_eq_ok]
    simp only [splitArray_8_left, splitArray_8_right, expansionPermutation_eq,
      XOR_Arrays_8, ok_bind]
    simp only [s_box_xorCell_S0, s_box_xorCell_S1, ok_bind, convertDecimalToBinary_lookup]
    simp only [Spec.toBits, List.cons_append, List.nil_append, P4_eq, XOR_Arrays_4,
      mergeArrays_4, ok_bind, Spec.subKey_3, Spec.subKey_1, roundValue_explicit]

theorem function_with_key_eq {b k : List Int} (first : Int)
    (hb : b.length = 8) (hk : k.length = 10) :
    function_with_key b k first
      = .ok (roundValue b (Spec.subKey k (if first = 0 then 3 else 1))) := by
  obtain ⟨b0, b1, b2, b3, b4, b5, b6, b7, rfl⟩ := eq_of_length_8 hb
  obtain ⟨k0, k1, k2, k3, k4, k5, k6, k7, k8, k9, rfl⟩ := eq_of_length_10 hk
  exact function_with_key_explicit _ _ _ _ _ _ _ _ _ _ _ _ _ _ _ _ _ _ _

/-! ## Properties of the closed form -/

theorem allBits_nil : AllBits [] := by
  intro x hx
  cases hx

theorem allBits_cons {a : Int} {l : List Int} : AllBits (a :: l) ↔ IsBit a ∧ AllBits l := by
  unfold AllBits
  simp

theorem isBit_add_mod (x y : Int) : IsBit ((x + y) % 2) := by
  unfold IsBit
  omega

theorem isBit_mod_two (v : Int) : IsBit (v % 2) := by
  unfold IsBit
  omega

theorem isBit_div_two {v : Int} (h : 0 ≤ v ∧ v ≤ 3) : IsBit (v / 2) := by
  unfold IsBit
  omega

theorem subKey_length (k : List Int) (n : Nat) : (Spec.subKey k n).length = 8 := by
  simp [Spec.subKey, Spec.apply, Spec.tableP8]

theorem allBits_subKey {k : List Int} (hk : k.length = 10) (hkb : AllBits k) :
    AllBits (Spec.subKey k 1) ∧ AllBits (Spec.subKey k 3) := by
  obtain ⟨k0, k1, k2, k3, k4, k5, k6, k7, k8, k9, rfl⟩ := eq_of_length_10 hk
  simp only [allBits_cons] at hkb
  obtain ⟨h0, h1, h2, h3, h4, h5, h6, h7, h8, h9, -⟩ := hkb
  simp only [Spec.subKey_1, Spec.subKey_3, allBits_cons]
  exact ⟨⟨h0, h6, h8, h3, h7, h2, h9, h5, allBits_nil⟩,
    ⟨h7, h2, h5, h4, h9, h1, h8, h0, allBits_nil⟩⟩

theorem roundValue_length {b K : List Int} (hb : b.length = 8) (hK : K.length = 8) :
    (roundValue b K).length = 8 := by
  obtain ⟨b0, b1, b2, b3, b4, b5, b6, b7, rfl⟩ := eq_of_length_8 hb
  obtain ⟨K0, K1, K2, K3, K4, K5, K6, K7, rfl⟩ := eq_of_length_8 hK
  rw [roundValue_explicit]
  rfl

theorem roundValue_drop {b K : List Int} (hb : b.length = 8) (hK : K.length = 8) :
    (roundValue b K).drop 4 = b.drop 4 := by
  obtain ⟨b0, b1, b2, b3, b4, b5, b6, b7, rfl⟩ := eq_of_length_8 hb
  obtain ⟨K0, K1, K2, K3, K4, K5, K6, K7, rfl⟩ := eq_of_length_8 hK
  rw [roundValue_explicit]
  rfl

theorem allBits_roundValue {b K : List Int} (hb : b.length = 8) (hK : K.length = 8)
    (hbb : AllBits b) : AllBits (roundValue b K) := by
  obtain ⟨b0, b1, b2, b3, b4, b5, b6, b7, rfl⟩ := eq_of_length_8 hb
  obtain ⟨K0, K1, K2, K3, K4, K5, K6, K7, rfl⟩ := eq_of_length_8 hK
  simp only [allBits_cons] at hbb
  obtain ⟨-, -, -, -, h4, h5, h6, h7, -⟩ := hbb
  rw [roundValue_explicit]
  simp only [allBits_cons]
  exact ⟨isBit_xorCell _ _, isBit_xorCell _ _, isBit_xorCell _ _, isBit_xorCell _ _,
    h4, h5, h6, h7, allBits_nil⟩

theorem roundValue_eq_spec {b K : List Int} (hb : b.length = 8) (hK : K.length = 8)
    (hbb : AllBits b) (hKb : AllBits K) : roundValue b K = Spec.roundWithSubKey b K := by
  obtain ⟨b0, b1, b2, b3, b4, b5, b6, b7, rfl⟩ := eq_of_length_8 hb
  obtain ⟨K0, K1, K2, K3, K4, K5, K6, K7, rfl⟩ := eq_of_length_8 hK
  simp only [allBits_cons] at hbb hKb
  obtain ⟨h0, h1, h2, h3, h4, h5, h6, h7, -⟩ := hbb
  obtain ⟨g0, g1, g2, g3, g4, g5, g6, g7, -⟩ := hKb
  rw [roundValue_explicit, Spec.roundWithSubKey_explicit]
  rw [xorCell_of_bits h7 g0, xorCell_of_bits h4 g1, xorCell_of_bits h5 g2,
    xorCell_of_bits h6 g3, xorCell_of_bits h5 g4, xorCell_of_bits h6 g5,
    xorCell_of_bits h7 g6, xorCell_of_bits h4 g7]
  have r0 := (lookup_range (isBit_add_mod b7 K0) (isBit_add_mod b4 K1)
    (isBit_add_mod b5 K2) (isBit_add_mod b6 K3)).1
  have r1 := (lookup_range (isBit_add_mod b5 K4) (isBit_add_mod b6 K5)
    (isBit_add_mod b7 K6) (isBit_add_mod b4 K7)).2
  rw [xorCell_of_bits (isBit_mod_two _) h0, xorCell_of_bits (isBit_mod_two _) h1,
    xorCell_of_bits (isBit_div_two r1) h2, xorCell_of_bits (isBit_div_two r0) h3]

theorem function_with_key_first {b k : List Int} (hb : b.length = 8) (hk : k.length = 10) :
    function_with_key b k 1 = .ok (roundValue b (Spec.subKey k 1)) :=
  function_with_key_eq 1 hb hk

theorem function_with_key_second {b k : List Int} (hb : b.length = 8) (hk : k.length = 10) :
    function_with_key b k 0 = .ok (roundValue b (Spec.subKey k 3)) :=
  function_with_key_eq 0 hb hk

/-! ## Claims -/

/-- C1 (as the code behaves): the pipeline of `main` encrypts the all-zero
plaintext under the all-zero key to 11110000. -/
theorem main_zero_ciphertext :
    mainResult [0, 0, 0, 0, 0, 0, 0, 0] [0, 0, 0, 0, 0, 0, 0, 0, 0, 0]
      = .ok [1, 1, 1, 1, 0, 0, 0, 0] := by
  decide

/-- C1 (counterexample): the ciphertext of the all-zero plaintext under the
all-zero key is not 11110100. -/
theorem main_zero_ciphertext_ne :
    mainResult [0, 0, 0, 0, 0, 0, 0, 0] [0, 0, 0, 0, 0, 0, 0, 0, 0, 0]
      ≠ .ok [1, 1, 1, 1, 0, 1, 0, 0] := by
  decide

/-- C2 (as the code behaves): on bit arrays the second round
`function_with_key(b, k, 0)` is the Feistel round computed with the subkey
`P8` of `P10(k)` with each half rotated left by three positions in total. -/
theorem second_round_three_rotations (b k : List Int)
    (hb : b.length = 8) (hk : k.length = 10) (hbb : AllBits b) (hkb : AllBits k) :
    function_with_key b k 0
      = .ok (Spec.roundWithSubKey b (Spec.apply Spec.tableP8 (Spec.rotatedKey k 3))) := by
  rw [function_with_key_second hb hk]
  rw [roundValue_eq_spec hb (subKey_length k 3) hbb (allBits_subKey hk hkb).2]
  rfl

/-- C2 (witness): the second round of the zero block under the key
1000000000. -/
theorem second_round_three_rotations_witness :
    function_with_key [0, 0, 0, 0, 0, 0, 0, 0] [1, 0, 0, 0, 0, 0, 0, 0, 0, 0] 0
      = .ok (Spec.roundWithSubKey [0, 0, 0, 0, 0, 0, 0, 0]
          (Spec.apply Spec.tableP8 (Spec.rotatedKey [1, 0, 0, 0, 0, 0, 0, 0, 0, 0] 3))) :=
  second_round_three_rotations [0, 0, 0, 0, 0, 0, 0, 0] [1, 0, 0, 0, 0, 0, 0, 0, 0, 0]
    (by decide) (by decide) (by decide) (by decide)

/-- C2 (counterexample): for the zero block and the key 1000000000 the second
round differs from the Feistel round computed with the subkey whose halves are
rotated by two positions in total. -/
theorem second_round_not_two_rotations :
    function_with_key [0, 0, 0, 0, 0, 0, 0, 0] [1, 0, 0, 0, 0, 0, 0, 0, 0, 0] 0
      ≠ .ok (Spec.roundWithSubKey [0, 0, 0, 0, 0, 0, 0, 0]
          (Spec.apply Spec.tableP8 (Spec.rotatedKey [1, 0, 0, 0, 0, 0, 0, 0, 0, 0] 2))) := by
  decide

/-- C3: on a bit block `L ++ R` and a bit key `k` the first round
`function_with_key(L ++ R, k, 1)` is
`merge(xor(P4(bits(S0 lookup, S1 lookup)), L), R)` with the lookups taken on the
halves of `m = xor(EP(R), K1)` and `K1` the `P8` of `P10(k)` with each half
shifted left once. -/
theorem first_round_formula (L R k : List Int)
    (hL : L.length = 4) (hR : R.length = 4) (hk : k.length = 10)
    (hLb : AllBits L) (hRb : AllBits R) (hkb : AllBits k) :
    let p := Spec.apply Spec.tableP10 k
    let K1 := Spec.apply Spec.tableP8
      (Spec.merge (Spec.circularLeftShift1 (Spec.split p true))
                  (Spec.circularLeftShift1 (Spec.split p false)))
    let m := Spec.xor (Spec.apply Spec.tableEP R) K1
    function_with_key (L ++ R) k 1
      = .ok (Spec.merge
          (Spec.xor
            (Spec.apply Spec.tableP4
              (Spec.toBits (Spec.lookup (Spec.split m true) S0)
                ++ Spec.toBits (Spec.lookup (Spec.split m false) S1)))
            L)
          R) := by
  intro p K1 m
  have hb : (L ++ R).length = 8 := by simp [hL, hR]
  have hbb : AllBits (L ++ R) := by
    intro x hx
    rcases List.mem_append.mp hx with h | h
    · exact hLb x h
    · exact hRb x h
  rw [function_with_key_first hb hk]
  rw [roundValue_eq_spec hb (subKey_length k 1) hbb (allBits_subKey hk hkb).1]
  obtain ⟨l0, l1, l2, l3, rfl⟩ := eq_of_length_4 hL
  obtain ⟨r0, r1, r2, r3, rfl⟩ := eq_of_length_4 hR
  obtain ⟨k0, k1, k2, k3, k4, k5, k6, k7, k8, k9, rfl⟩ := eq_of_length_10 hk
  simp only [m, K1, p, List.cons_append, List.nil_append, Spec.subKey_1,
    Spec.roundWithSubKey_explicit, Spec.apply_P10, Spec.split_10_left, Spec.split_10_right,
    Spec.circularLeftShift1_5, Spec.merge, Spec.apply_P8, Spec.apply_EP, Spec.xor_8,
    Spec.split_8_left, Spec.split_8_right]
  rfl

/-- C3 (witness): the first round of the block 1011 0110 under the key
1010000010. -/
theorem first_round_formula_witness :
    function_with_key ([1, 0, 1, 1] ++ [0, 1, 1, 0]) [1, 0, 1, 0, 0, 0, 0, 0, 1, 0] 1
      = .ok [0, 1, 0, 0, 0, 1, 1, 0] :=
  (first_round_formula [1, 0, 1, 1] [0, 1, 1, 0] [1, 0, 1, 0, 0, 0, 0, 0, 1, 0]
    (by decide) (by decide) (by decide) (by decide) (by decide) (by decide)).trans
    (by decide)

/-- C4: for every block of 8 elements, key of 10 elements and value of the
flag, `function_with_key` returns an array of 8 elements whose right half
(elements 4..7) is the right half of the block. -/
theorem function_with_key_right_half (b k : List Int) (first : Int)
    (hb : b.length = 8) (hk : k.length = 10) :
    ∃ r, function_with_key b k first = .ok r ∧ r.length = 8 ∧ r.drop 4 = b.drop 4 ∧
      splitArray r 8 0 = splitArray b 8 0 := by
  refine ⟨_, function_with_key_eq first hb hk,
    roundValue_length hb (subKey_length k _), roundValue_drop hb (subKey_length k _), ?_⟩
  have hd := roundValue_drop hb (subKey_length k (if first = 0 then 3 else 1))
  obtain ⟨c0, c1, c2, c3, c4, c5, c6, c7, hc⟩ :=
    eq_of_length_8 (roundValue_length hb (subKey_length k (if first = 0 then 3 else 1)))
  obtain ⟨b0, b1, b2, b3, b4, b5, b6, b7, rfl⟩ := eq_of_length_8 hb
  rw [hc] at hd ⊢
  simp only [List.drop_succ_cons, List.drop_zero, List.cons.injEq, and_true] at hd
  obtain ⟨rfl, rfl, rfl, rfl⟩ := hd
  rw [splitArray_8_right, splitArray_8_right]

/-- C4 (witness): the second round of the block 0000 1000 under the zero
key keeps the right half 1000. -/
theorem function_with_key_right_half_witness :
    ∃ r, function_with_key [0, 0, 0, 0, 1, 0, 0, 0] [0, 0, 0, 0, 0, 0, 0, 0, 0, 0] 0 = .ok r ∧
      r.length = 8 ∧ r.drop 4 = [0, 0, 0, 0, 1, 0, 0, 0].drop 4 ∧
      splitArray r 8 0 = splitArray [0, 0, 0, 0, 1, 0, 0, 0] 8 0 :=
  function_with_key_right_half [0, 0, 0, 0, 1, 0, 0, 0] [0, 0, 0, 0, 0, 0, 0, 0, 0, 0] 0
    (by decide) (by decide)

/-- C5: on a plaintext of 8 bits and a key of 10 elements (bits or not) every
stage of the pipeline of `main` returns, and the block after IP, after round 1,
after the half-swap, after round 2 and the ciphertext each have 8 elements, all
in {0,1}. -/
theorem pipeline_blocks_are_bits (plaintext key : List Int)
    (hp : plaintext.length = 8) (hk : key.length = 10) (hpb : AllBits plaintext) :
    ∃ ip r1 sw r2 c,
      initialPermutation plaintext = .ok ip ∧
      function_with_key ip key 1 = .ok r1 ∧
      switchArray r1 8 = .ok sw ∧
      function_with_key sw key 0 = .ok r2 ∧
      finalPermutation r2 = .ok c ∧
      mainResult plaintext key = .ok c ∧
      (ip.length = 8 ∧ AllBits ip) ∧ (r1.length = 8 ∧ AllBits r1) ∧
      (sw.length = 8 ∧ AllBits sw) ∧ (r2.length = 8 ∧ AllBits r2) ∧
      (c.length = 8 ∧ AllBits c) := by
  obtain ⟨p0, p1, p2, p3, p4, p5, p6, p7, rfl⟩ := eq_of_length_8 hp
  simp only [allBits_cons] at hpb
  obtain ⟨g0, g1, g2, g3, g4, g5, g6, g7, -⟩ := hpb
  -- after IP
  have hip := initialPermutation_eq p0 p1 p2 p3 p4 p5 p6 p7
  have hipl : [p1, p5, p2, p0, p3, p7, p4, p6].length = 8 := rfl
  have hipb : AllBits [p1, p5, p2, p0, p3, p7, p4, p6] := by
    simp only [allBits_cons]
    exact ⟨g1, g5, g2, g0, g3, g7, g4, g6, allBits_nil⟩
  -- after round 1
  have h1 := function_with_key_first hipl hk
  have h1l := roundValue_length hipl (subKey_length key 1)
  have h1b := allBits_roundValue hipl (subKey_length key 1) hipb
  obtain ⟨c0, c1, c2, c3, c4, c5, c6, c7, hc⟩ := eq_of_length_8 h1l
  rw [hc] at h1 h1b
  simp only [allBits_cons] at h1b
  obtain ⟨e0, e1, e2, e3, e4, e5, e6, e7, -⟩ := h1b
  -- after the half-swap
  have hsw := switchArray_8 c0 c1 c2 c3 c4 c5 c6 c7
  have hswl : [c4, c5, c6, c7, c0, c1, c2, c3].length = 8 := rfl
  have hswb : AllBits [c4, c5, c6, c7, c0, c1, c2, c3] := by
    simp only [allBits_cons]
    exact ⟨e4, e5, e6, e7, e0, e1, e2, e3, allBits_nil⟩
  -- after round 2
  have h2 := function_with_key_second hswl hk
  have h2l := roundValue_length hswl (subKey_length key 3)
  have h2b := allBits_roundValue hswl (subKey_length key 3) hswb
  obtain ⟨d0, d1, d2, d3, d4, d5, d6, d7, hd⟩ := eq_of_length_8 h2l
  rw [hd] at h2 h2b
  simp only [allBits_cons] at h2b
  obtain ⟨f0, f1, f2, f3, f4, f5, f6, f7, -⟩ := h2b
  -- after FP
  have hfp := finalPermutation_eq d0 d1 d2 d3 d4 d5 d6 d7
  have hfpb : AllBits [d3, d0, d2, d4, d6, d1, d7, d5] := by
    simp only [allBits_cons]
    exact ⟨f3, f0, f2, f4, f6, f1, f7, f5, allBits_nil⟩
  have hmain : mainResult [p0, p1, p2, p3, p4, p5, p6, p7] key
      = .ok [d3, d0, d2, d4, d6, d1, d7, d5] := by
    simp only [mainResult, hip, ok_bind, h1, hsw, h2, hfp]
  have hcb : AllBits [c0, c1, c2, c3, c4, c5, c6, c7] := by
    simp only [allBits_cons]
    exact ⟨e0, e1, e2, e3, e4, e5, e6, e7, allBits_nil⟩
  have hdb : AllBits [d0, d1, d2, d3, d4, d5, d6, d7] := by
    simp only [allBits_cons]
    exact ⟨f0, f1, f2, f3, f4, f5, f6, f7, allBits_nil⟩
  exact ⟨_, _, _, _, _, hip, h1, hsw, h2, hfp, hmain, ⟨hipl, hipb⟩, ⟨rfl, hcb⟩,
    ⟨rfl, hswb⟩, ⟨rfl, hdb⟩, ⟨rfl, hfpb⟩⟩

/-- C5 (witness): the stages of the pipeline on the default plaintext
01010001 and key 0101001100 of `main`. -/
theorem pipeline_blocks_are_bits_witness :
    ∃ ip r1 sw r2 c,
      initialPermutation [0, 1, 0, 1, 0, 0, 0, 1] = .ok ip ∧
      function_with_key ip [0, 1, 0, 1, 0, 0, 1, 1, 0, 0] 1 = .ok r1 ∧
      switchArray r1 8 = .ok sw ∧
      function_with_key sw [0, 1, 0, 1, 0, 0, 1, 1, 0, 0] 0 = .ok r2 ∧
      finalPermutation r2 = .ok c ∧
      mainResult [0, 1, 0, 1, 0, 0, 0, 1] [0, 1, 0, 1, 0, 0, 1, 1, 0, 0] = .ok c ∧
      (ip.length = 8 ∧ AllBits ip) ∧ (r1.length = 8 ∧ AllBits r1) ∧
      (sw.length = 8 ∧ AllBits sw) ∧ (r2.length = 8 ∧ AllBits r2) ∧
      (c.length = 8 ∧ AllBits c) :=
  pipeline_blocks_are_bits [0, 1, 0, 1, 0, 0, 0, 1] [0, 1, 0, 1, 0, 0, 1, 1, 0, 0]
    (by decide) (by decide) (by decide)

/-- C6: on arrays of 8 elements `finalPermutation` undoes
`initialPermutation` and `initialPermutation` undoes `finalPermutation`. -/
theorem finalPermutation_initialPermutation (x : List Int) (hx : x.length = 8) :
    (initialPermutation x >>= finalPermutation) = .ok x ∧
    (finalPermutation x >>= initialPermutation) = .ok x := by
  obtain ⟨a0, a1, a2, a3, a4, a5, a6, a7, rfl⟩ := eq_of_length_8 hx
  constructor
  · rw [initialPermutation_eq, ok_bind, finalPermutation_eq]
  · rw [finalPermutation_eq, ok_bind, initialPermutation_eq]

/-- C6 (witness): the two permutations undo each other on
[10, 11, 12, 13, 14, 15, 16, 17]. -/
theorem finalPermutation_initialPermutation_witness :
    (initialPermutation [10, 11, 12, 13, 14, 15, 16, 17] >>= finalPermutation)
        = .ok [10, 11, 12, 13, 14, 15, 16, 17] ∧
    (finalPermutation [10, 11, 12, 13, 14, 15, 16, 17] >>= initialPermutation)
        = .ok [10, 11, 12, 13, 14, 15, 16, 17] :=
  finalPermutation_initialPermutation [10, 11, 12, 13, 14, 15, 16, 17] (by decide)

/-- C7: each of the six permutation functions is the application
`output[i] = input[table[i]]` of its table, and its output has as many
elements as the table (8, 8, 8, 4, 8, 10). -/
theorem permutations_apply_tables (x8 x4 x10 : List Int)
    (h8 : x8.length = 8) (h4 : x4.length = 4) (h10 : x10.length = 10) :
    (initialPermutation x8 = .ok (Spec.apply [1, 5, 2, 0, 3, 7, 4, 6] x8) ∧
      (Spec.apply [1, 5, 2, 0, 3, 7, 4, 6] x8).length = 8) ∧
    (finalPermutation x8 = .ok (Spec.apply [3, 0, 2, 4, 6, 1, 7, 5] x8) ∧
      (Spec.apply [3, 0, 2, 4, 6, 1, 7, 5] x8).length = 8) ∧
    (expansionPermutation x4 = .ok (Spec.apply [3, 0, 1, 2, 1, 2, 3, 0] x4) ∧
      (Spec.apply [3, 0, 1, 2, 1, 2, 3, 0] x4).length = 8) ∧
    (P4 x4 = .ok (Spec.apply [1, 3, 2, 0] x4) ∧
      (Spec.apply [1, 3, 2, 0] x4).length = 4) ∧
    (P8 x10 = .ok (Spec.apply [5, 2, 6, 3, 7, 4, 9, 8] x10) ∧
      (Spec.apply [5, 2, 6, 3, 7, 4, 9, 8] x10).length = 8) ∧
    (P10 x10 = .ok (Spec.apply [2, 4, 1, 6, 3, 9, 0, 8, 7, 5] x10) ∧
      (Spec.apply [2, 4, 1, 6, 3, 9, 0, 8, 7, 5] x10).length = 10) := by
  obtain ⟨a0, a1, a2, a3, a4, a5, a6, a7, rfl⟩ := eq_of_length_8 h8
  obtain ⟨c0, c1, c2, c3, rfl⟩ := eq_of_length_4 h4
  obtain ⟨k0, k1, k2, k3, k4, k5, k6, k7, k8, k9, rfl⟩ := eq_of_length_10 h10
  exact ⟨⟨rfl, rfl⟩, ⟨rfl, rfl⟩, ⟨rfl, rfl⟩, ⟨rfl, rfl⟩, ⟨rfl, rfl⟩, ⟨rfl, rfl⟩⟩

/-- C7 (witness): the six permutation functions on the arrays that hold
their own indices return their tables. -/
theorem permutations_apply_tables_witness :
    (initialPermutation [0, 1, 2, 3, 4, 5, 6, 7]
        = .ok (Spec.apply [1, 5, 2, 0, 3, 7, 4, 6] [0, 1, 2, 3, 4, 5, 6, 7]) ∧
      (Spec.apply [1, 5, 2, 0, 3, 7, 4, 6] [0, 1, 2, 3, 4, 5, 6, 7]).length = 8) ∧
    (finalPermutation [0, 1, 2, 3, 4, 5, 6, 7]
        = .ok (Spec.apply [3, 0, 2, 4, 6, 1, 7, 5] [0, 1, 2, 3, 4, 5, 6, 7]) ∧
      (Spec.apply [3, 0, 2, 4, 6, 1, 7, 5] [0, 1, 2, 3, 4, 5, 6, 7]).length = 8) ∧
    (expansionPermutation [0, 1, 2, 3]
        = .ok (Spec.apply [3, 0, 1, 2, 1, 2, 3, 0] [0, 1, 2, 3]) ∧
      (Spec.apply [3, 0, 1, 2, 1, 2, 3, 0] [0, 1, 2, 3]).length = 8) ∧
    (P4 [0, 1, 2, 3] = .ok (Spec.apply [1, 3, 2, 0] [0, 1, 2, 3]) ∧
      (Spec.apply [1, 3, 2, 0] [0, 1, 2, 3]).length = 4) ∧
    (P8 [0, 1, 2, 3, 4, 5, 6, 7, 8, 9]
        = .ok (Spec.apply [5, 2, 6, 3, 7, 4, 9, 8] [0, 1, 2, 3, 4, 5, 6, 7, 8, 9]) ∧
      (Spec.apply [5, 2, 6, 3, 7, 4, 9, 8] [0, 1, 2, 3, 4, 5, 6, 7, 8, 9]).length = 8) ∧
    (P10 [0, 1, 2, 3, 4, 5, 6, 7, 8, 9]
        = .ok (Spec.apply [2, 4, 1, 6, 3, 9, 0, 8, 7, 5] [0, 1, 2, 3, 4, 5, 6, 7, 8, 9]) ∧
      (Spec.apply [2, 4, 1, 6, 3, 9, 0, 8, 7, 5] [0, 1, 2, 3, 4, 5, 6, 7, 8, 9]).length
        = 10) :=
  permutations_apply_tables [0, 1, 2, 3, 4, 5, 6, 7] [0, 1, 2, 3]
    [0, 1, 2, 3, 4, 5, 6, 7, 8, 9] (by decide) (by decide) (by decide)

/-- C8 (as the code behaves): every index of [0,8) is read exactly once by
`initialPermutation` and by `finalPermutation`, every index of [0,4) exactly
twice by `expansionPermutation` and exactly once by `P4`, every index of [0,10)
exactly once by `P10`; `P8` reads each of the indices 2..9 exactly once and
does not read the indices 0 and 1. -/
theorem permutation_read_counts :
    (indicesRead initialPermutation 8 = [1, 5, 2, 0, 3, 7, 4, 6] ∧
      readCounts initialPermutation 8 = [1, 1, 1, 1, 1, 1, 1, 1]) ∧
    (indicesRead finalPermutation 8 = [3, 0, 2, 4, 6, 1, 7, 5] ∧
      readCounts finalPermutation 8 = [1, 1, 1, 1, 1, 1, 1, 1]) ∧
    (indicesRead expansionPermutation 4 = [3, 0, 1, 2, 1, 2, 3, 0] ∧
      readCounts expansionPermutation 4 = [2, 2, 2, 2]) ∧
    (indicesRead P4 4 = [1, 3, 2, 0] ∧ readCounts P4 4 = [1, 1, 1, 1]) ∧
    (indicesRead P8 10 = [5, 2, 6, 3, 7, 4, 9, 8] ∧
      readCounts P8 10 = [0, 0, 1, 1, 1, 1, 1, 1, 1, 1]) ∧
    (indicesRead P10 10 = [2, 4, 1, 6, 3, 9, 0, 8, 7, 5] ∧
      readCounts P10 10 = [1, 1, 1, 1, 1, 1, 1, 1, 1, 1]) := by
  decide

/-- C8 (counterexample): not every index of the domain [0,10) of `P8` is read
by at least one output position: index 0 is read by none. -/
theorem P8_reads_not_cover_domain :
    ¬ (∀ j, j < 10 → 1 ≤ (indicesRead P8 10).count (Int.ofNat j)) := by
  intro h
  exact absurd (h 0 (by decide)) (by decide)

/-- C9: on a nibble `(x1, y1, y2, x2)` of bits `s_box` indexes its table with
the row `2*x1 + x2` and the column `2*y1 + y2`, and returns the entry of `S0`
when `left` is non-zero and of `S1` when `left` is 0. -/
theorem s_box_lookup (x1 y1 y2 x2 left : Int)
    (h1 : IsBit x1) (h2 : IsBit y1) (h3 : IsBit y2) (h4 : IsBit x2) :
    s_box_indices [x1, y1, y2, x2] = .ok (2 * x1 + x2, 2 * y1 + y2) ∧
    s_box [x1, y1, y2, x2] left
      = index2 (if left ≠ 0 then S0 else S1) (2 * x1 + x2) (2 * y1 + y2) ∧
    (∃ v, s_box [x1, y1, y2, x2] left = .ok v) ∧
    S0 = [[1, 0, 3, 2], [3, 2, 1, 0], [0, 2, 1, 3], [3, 1, 3, 2]] ∧
    S1 = [[0, 1, 2, 3], [2, 0, 1, 3], [3, 0, 1, 0], [2, 1, 0, 3]] := by
  refine ⟨s_box_indices_bits h1 h2 h3 h4, ?_, ⟨_, s_box_bits left h1 h2 h3 h4⟩, rfl, rfl⟩
  unfold s_box
  rw [s_box_indices_bits h1 h2 h3 h4]
  simp only [ok_bind]
  split <;> rfl

/-- C9 (witness): the nibble 1011 has row 3 and column 1, so `S0` gives 1 and
`S1` gives 1. -/
theorem s_box_lookup_witness :
    s_box_indices [1, 0, 1, 1] = .ok (2 * 1 + 1, 2 * 0 + 1) ∧
    s_box [1, 0, 1, 1] 1 = index2 (if (1 : Int) ≠ 0 then S0 else S1) (2 * 1 + 1) (2 * 0 + 1) ∧
    (∃ v, s_box [1, 0, 1, 1] 1 = .ok v) ∧
    S0 = [[1, 0, 3, 2], [3, 2, 1, 0], [0, 2, 1, 3], [3, 1, 3, 2]] ∧
    S1 = [[0, 1, 2, 3], [2, 0, 1, 3], [3, 0, 1, 0], [2, 1, 0, 3]] :=
  s_box_lookup 1 0 1 1 1 (by decide) (by decide) (by decide) (by decide)

/-- C10: on each of the 16 nibbles of bits and for both S-boxes, the row and
column that `s_box` computes lie in [0,3], `s_box` returns a value in [0,3],
and `convertDecimalToBinary` on such values returns four cells that are all
written. -/
theorem s_box_in_range (x1 y1 y2 x2 left : Int)
    (h1 : IsBit x1) (h2 : IsBit y1) (h3 : IsBit y2) (h4 : IsBit x2) :
    ∃ row col v,
      s_box_indices [x1, y1, y2, x2] = .ok (row, col) ∧
      (0 ≤ row ∧ row ≤ 3) ∧ (0 ≤ col ∧ col ≤ 3) ∧
      s_box [x1, y1, y2, x2] left = .ok v ∧ (0 ≤ v ∧ v ≤ 3) ∧
      ∀ w, 0 ≤ w ∧ w ≤ 3 →
        (∃ out, convertDecimalToBinary v w = .ok out ∧ out.length = 4 ∧ AllBits out) ∧
        (∃ out, convertDecimalToBinary w v = .ok out ∧ out.length = 4 ∧ AllBits out) := by
  have hv : 0 ≤ Spec.lookup [x1, y1, y2, x2] (if left ≠ 0 then S0 else S1) ∧
      Spec.lookup [x1, y1, y2, x2] (if left ≠ 0 then S0 else S1) ≤ 3 := by
    split
    · exact (lookup_range h1 h2 h3 h4).1
    · exact (lookup_range h1 h2 h3 h4).2
  have hout : ∀ a c : Int, 0 ≤ a ∧ a ≤ 3 → 0 ≤ c ∧ c ≤ 3 →
      ∃ out, convertDecimalToBinary a c = .ok out ∧ out.length = 4 ∧ AllBits out := by
    intro a c ha hc
    refine ⟨_, convertDecimalToBinary_eq ha hc, rfl, ?_⟩
    simp only [Spec.toBits, List.cons_append, List.nil_append, allBits_cons]
    exact ⟨isBit_div_two ha, isBit_mod_two a, isBit_div_two hc, isBit_mod_two c, allBits_nil⟩
  refine ⟨_, _, _, s_box_indices_bits h1 h2 h3 h4, ?_, ?_, s_box_bits left h1 h2 h3 h4, hv,
    fun w hw => ⟨hout _ w hv hw, hout w _ hw hv⟩⟩
  · unfold IsBit at h1 h4
    omega
  · unfold IsBit at h2 h3
    omega

/-- C10 (witness): the nibble 1111 in `S1`. -/
theorem s_box_in_range_witness :
    ∃ row col v,
      s_box_indices [1, 1, 1, 1] = .ok (row, col) ∧
      (0 ≤ row ∧ row ≤ 3) ∧ (0 ≤ col ∧ col ≤ 3) ∧
      s_box [1, 1, 1, 1] 0 = .ok v ∧ (0 ≤ v ∧ v ≤ 3) ∧
      ∀ w, 0 ≤ w ∧ w ≤ 3 →
        (∃ out, convertDecimalToBinary v w = .ok out ∧ out.length = 4 ∧ AllBits out) ∧
        (∃ out, convertDecimalToBinary w v = .ok out ∧ out.length = 4 ∧ AllBits out) :=
  s_box_in_range 1 1 1 1 0 (by decide) (by decide) (by decide) (by decide)

/-! ## The Feistel structure -/

theorem xorCell_cancel (t : Int) {x : Int} (hx : IsBit x) : xorCell t (xorCell t x) = x := by
  by_cases ht : t = 0
  · rcases hx with rfl | rfl <;> simp [xorCell, ht]
  · rcases hx with rfl | rfl <;> simp [xorCell, ht]

theorem roundValue_involutive {b K : List Int} (hb : b.length = 8) (hK : K.length = 8)
    (hbb : AllBits b) : roundValue (roundValue b K) K = b := by
  obtain ⟨b0, b1, b2, b3, b4, b5, b6, b7, rfl⟩ := eq_of_length_8 hb
  obtain ⟨K0, K1, K2, K3, K4, K5, K6, K7, rfl⟩ := eq_of_length_8 hK
  simp only [allBits_cons] at hbb
  obtain ⟨h0, h1, h2, h3, -⟩ := hbb
  rw [roundValue_explicit, roundValue_explicit, xorCell_cancel _ h0, xorCell_cancel _ h1,
    xorCell_cancel _ h2, xorCell_cancel _ h3]

theorem switchArray_eq {b : List Int} (hb : b.length = 8) :
    switchArray b 8 = .ok (b.drop 4 ++ b.take 4) := by
  obtain ⟨b0, b1, b2, b3, b4, b5, b6, b7, rfl⟩ := eq_of_length_8 hb
  exact switchArray_8 _ _ _ _ _ _ _ _

theorem initialPermutation_finalPermutation_eq {x : List Int} (hx : x.length = 8) :
    ∃ y, finalPermutation x = .ok y ∧ y.length = 8 ∧ initialPermutation y = .ok x ∧
      (AllBits x → AllBits y) := by
  obtain ⟨a0, a1, a2, a3, a4, a5, a6, a7, rfl⟩ := eq_of_length_8 hx
  refine ⟨_, finalPermutation_eq _ _ _ _ _ _ _ _, rfl, initialPermutation_eq _ _ _ _ _ _ _ _, ?_⟩
  intro h
  simp only [allBits_cons] at h ⊢
  obtain ⟨h0, h1, h2, h3, h4, h5, h6, h7, -⟩ := h
  exact ⟨h3, h0, h2, h4, h6, h1, h7, h5, allBits_nil⟩

theorem finalPermutation_initialPermutation_eq {x : List Int} (hx : x.length = 8) :
    ∃ y, initialPermutation x = .ok y ∧ y.length = 8 ∧ finalPermutation y = .ok x ∧
      (AllBits x → AllBits y) := by
  obtain ⟨a0, a1, a2, a3, a4, a5, a6, a7, rfl⟩ := eq_of_length_8 hx
  refine ⟨_, initialPermutation_eq _ _ _ _ _ _ _ _, rfl, finalPermutation_eq _ _ _ _ _ _ _ _, ?_⟩
  intro h
  simp only [allBits_cons] at h ⊢
  obtain ⟨h0, h1, h2, h3, h4, h5, h6, h7, -⟩ := h
  exact ⟨h1, h5, h2, h0, h3, h7, h4, h6, allBits_nil⟩

theorem switchArray_switchArray {b : List Int} (hb : b.length = 8) :
    ∃ s, switchArray b 8 = .ok s ∧ s.length = 8 ∧ switchArray s 8 = .ok b ∧
      (AllBits b → AllBits s) := by
  obtain ⟨a0, a1, a2, a3, a4, a5, a6, a7, rfl⟩ := eq_of_length_8 hb
  refine ⟨_, switchArray_8 _ _ _ _ _ _ _ _, rfl, switchArray_8 _ _ _ _ _ _ _ _, ?_⟩
  intro h
  simp only [allBits_cons] at h ⊢
  obtain ⟨h0, h1, h2, h3, h4, h5, h6, h7, -⟩ := h
  exact ⟨h4, h5, h6, h7, h0, h1, h2, h3, allBits_nil⟩

/-- The pipeline of `main` in closed form. -/
theorem mainResult_eq {p k : List Int} (hp : p.length = 8) (hk : k.length = 10) :
    ∃ ip r1 sw r2 c,
      initialPermutation p = .ok ip ∧ ip.length = 8 ∧ finalPermutation ip = .ok p ∧
      r1 = roundValue ip (Spec.subKey k 1) ∧ r1.length = 8 ∧
      switchArray r1 8 = .ok sw ∧ sw.length = 8 ∧ switchArray sw 8 = .ok r1 ∧
      r2 = roundValue sw (Spec.subKey k 3) ∧ r2.length = 8 ∧
      finalPermutation r2 = .ok c ∧ c.length = 8 ∧ initialPermutation c = .ok r2 ∧
      mainResult p k = .ok c ∧
      (AllBits p → AllBits ip ∧ AllBits r1 ∧ AllBits sw ∧ AllBits r2 ∧ AllBits c) := by
  obtain ⟨ip, hip, hipl, hipi, hipb⟩ := finalPermutation_initialPermutation_eq hp
  have h1l := roundValue_length hipl (subKey_length k 1)
  obtain ⟨sw, hsw, hswl, hswi, hswb⟩ := switchArray_switchArray h1l
  have h2l := roundValue_length hswl (subKey_length k 3)
  obtain ⟨c, hc, hcl, hci, hcb⟩ := initialPermutation_finalPermutation_eq h2l
  refine ⟨ip, _, sw, _, c, hip, hipl, hipi, rfl, h1l, hsw, hswl, hswi, rfl, h2l, hc, hcl, hci,
    ?_, ?_⟩
  · simp only [mainResult, hip, ok_bind, function_with_key_first hipl hk, hsw,
      function_with_key_second hswl hk, hc]
  · intro hpb
    have b1 := hipb hpb
    have b2 := allBits_roundValue hipl (subKey_length k 1) b1
    have b3 := hswb b2
    have b4 := allBits_roundValue hswl (subKey_length k 3) b3
    exact ⟨b1, b2, b3, b4, hcb b4⟩

/-! ## Claims, second part -/

/-- C11 (as the code behaves): after `function_with_key` and `switchArray` the
left half of the block is the right half of `b`, and a second
`function_with_key` with the same key and flag returns a block whose right
half is the left half of the first `function_with_key` result. -/
theorem round_swap_round_halves (b k : List Int) (f : Int)
    (hb : b.length = 8) (hk : k.length = 10) :
    ∃ r1 sw r2,
      function_with_key b k f = .ok r1 ∧ switchArray r1 8 = .ok sw ∧
      function_with_key sw k f = .ok r2 ∧
      splitArray sw 8 1 = splitArray b 8 0 ∧ sw.take 4 = b.drop 4 ∧
      splitArray r2 8 0 = splitArray r1 8 1 ∧ r2.drop 4 = r1.take 4 := by
  have h1 := function_with_key_eq f hb hk
  have h1l := roundValue_length hb (subKey_length k (if f = 0 then 3 else 1))
  have h1d := roundValue_drop hb (subKey_length k (if f = 0 then 3 else 1))
  obtain ⟨c0, c1, c2, c3, c4, c5, c6, c7, hc⟩ := eq_of_length_8 h1l
  rw [hc] at h1 h1d
  have hswl : [c4, c5, c6, c7, c0, c1, c2, c3].length = 8 := rfl
  have h2 := function_with_key_eq f hswl hk
  have h2l := roundValue_length hswl (subKey_length k (if f = 0 then 3 else 1))
  have h2d := roundValue_drop hswl (subKey_length k (if f = 0 then 3 else 1))
  obtain ⟨d0, d1, d2, d3, d4, d5, d6, d7, hd⟩ := eq_of_length_8 h2l
  rw [hd] at h2 h2d
  obtain ⟨b0, b1, b2, b3, b4, b5, b6, b7, rfl⟩ := eq_of_length_8 hb
  simp only [List.drop_succ_cons, List.drop_zero, List.cons.injEq, and_true] at h1d h2d
  obtain ⟨rfl, rfl, rfl, rfl⟩ := h1d
  obtain ⟨rfl, rfl, rfl, rfl⟩ := h2d
  refine ⟨_, _, _, h1, switchArray_8 _ _ _ _ _ _ _ _, h2, ?_, rfl, ?_, rfl⟩
  · rw [splitArray_8_left, splitArray_8_right]
  · rw [splitArray_8_left, splitArray_8_right]

/-- C11 (witness): the two rounds with a swap in between on the block 0110 1001
under the key 1010000010 and the flag 1. -/
theorem round_swap_round_halves_witness :
    ∃ r1 sw r2,
      function_with_key [0, 1, 1, 0, 1, 0, 0, 1] [1, 0, 1, 0, 0, 0, 0, 0, 1, 0] 1 = .ok r1 ∧
      switchArray r1 8 = .ok sw ∧
      function_with_key sw [1, 0, 1, 0, 0, 0, 0, 0, 1, 0] 1 = .ok r2 ∧
      splitArray sw 8 1 = splitArray [0, 1, 1, 0, 1, 0, 0, 1] 8 0 ∧
      sw.take 4 = [0, 1, 1, 0, 1, 0, 0, 1].drop 4 ∧
      splitArray r2 8 0 = splitArray r1 8 1 ∧ r2.drop 4 = r1.take 4 :=
  round_swap_round_halves [0, 1, 1, 0, 1, 0, 0, 1] [1, 0, 1, 0, 0, 0, 0, 0, 1, 0] 1
    (by decide) (by decide)

/-- C11 (counterexample): for the zero block and the zero key with the flag 1,
the left half of `function_with_key(switchArray(function_with_key(b)))` (it is
1011) is not the right half of `b` (it is 0000). -/
theorem round_swap_round_left_half_ne :
    (function_with_key [0, 0, 0, 0, 0, 0, 0, 0] [0, 0, 0, 0, 0, 0, 0, 0, 0, 0] 1 >>= fun r1 =>
      switchArray r1 8 >>= fun sw =>
      function_with_key sw [0, 0, 0, 0, 0, 0, 0, 0, 0, 0] 1 >>= fun r2 =>
      splitArray r2 8 1) ≠ splitArray [0, 0, 0, 0, 0, 0, 0, 0] 8 0 := by
  decide

/-- C14: on a block of 8 elements `switchArray(b, 8)` is `b` rotated left by 4,
`result[k] = b[(k + 4) mod 8]`, that is the right half of `b` followed by its
left half, and applying it twice gives `b` back. -/
theorem switchArray_rotates (b : List Int) (hb : b.length = 8) :
    ∃ r, switchArray b 8 = .ok r ∧ r.length = 8 ∧
      (∀ k, k < 8 → r[k]? = b[(k + 4) % 8]?) ∧
      r = b.rotate 4 ∧ r = b.drop 4 ++ b.take 4 ∧
      switchArray r 8 = .ok b := by
  obtain ⟨b0, b1, b2, b3, b4, b5, b6, b7, rfl⟩ := eq_of_length_8 hb
  refine ⟨_, switchArray_8 _ _ _ _ _ _ _ _, rfl, ?_, ?_, rfl, switchArray_8 _ _ _ _ _ _ _ _⟩
  · intro k hk
    interval_cases k <;> rfl
  · simp [List.rotate]

/-- C14 (witness): `switchArray` on [0, 1, 2, 3, 4, 5, 6, 7]. -/
theorem switchArray_rotates_witness :
    ∃ r, switchArray [0, 1, 2, 3, 4, 5, 6, 7] 8 = .ok r ∧ r.length = 8 ∧
      (∀ k, k < 8 → r[k]? = [0, 1, 2, 3, 4, 5, 6, (7 : Int)][(k + 4) % 8]?) ∧
      r = [0, 1, 2, 3, 4, 5, 6, 7].rotate 4 ∧
      r = [0, 1, 2, 3, 4, 5, 6, 7].drop 4 ++ [0, 1, 2, 3, 4, 5, 6, 7].take 4 ∧
      switchArray r 8 = .ok [0, 1, 2, 3, 4, 5, 6, 7] :=
  switchArray_rotates [0, 1, 2, 3, 4, 5, 6, 7] (by decide)

/-- C18: for a key of 10 elements and a plaintext of 8 bits the pipeline of
`main` returns a ciphertext, the pipeline with the rounds in the opposite order
maps that ciphertext back to the plaintext, and two bit plaintexts with the
same ciphertext are equal. -/
theorem inverseResult_mainResult (p k : List Int)
    (hp : p.length = 8) (hk : k.length = 10) (hpb : AllBits p) :
    (∃ c, mainResult p k = .ok c ∧ inverseResult c k = .ok p) ∧
    (∀ q, q.length = 8 → AllBits q → mainResult q k = mainResult p k → q = p) := by
  have key : ∀ x : List Int, x.length = 8 → AllBits x →
      ∃ c, mainResult x k = .ok c ∧ inverseResult c k = .ok x := by
    intro x hx hxb
    obtain ⟨ip, r1, sw, r2, c, hip, hipl, hipi, hr1, h1l, hsw, hswl, hswi, hr2, h2l, hc, hcl,
      hci, hmain, hbits⟩ := mainResult_eq hx hk
    obtain ⟨b1, b2, b3, b4, b5⟩ := hbits hxb
    refine ⟨c, hmain, ?_⟩
    have e2 : roundValue r2 (Spec.subKey k 3) = sw := by
      rw [hr2]
      exact roundValue_involutive hswl (subKey_length k 3) b3
    have e1 : roundValue r1 (Spec.subKey k 1) = ip := by
      rw [hr1]
      exact roundValue_involutive hipl (subKey_length k 1) b1
    simp only [inverseResult, hci, ok_bind, function_with_key_second h2l hk, e2, hswi,
      function_with_key_first h1l hk, e1, hipi]
  refine ⟨key p hp hpb, ?_⟩
  intro q hq hqb hqp
  obtain ⟨c, hc, hci⟩ := key p hp hpb
  obtain ⟨d, hd, hdi⟩ := key q hq hqb
  rw [hc, hd] at hqp
  have hcd : d = c := by
    injection hqp
  rw [hcd, hci] at hdi
  injection hdi with h
  exact h.symm

/-- C18 (witness): the default plaintext and key of `main`. -/
theorem inverseResult_mainResult_witness :
    (∃ c, mainResult [0, 1, 0, 1, 0, 0, 0, 1] [0, 1, 0, 1, 0, 0, 1, 1, 0, 0] = .ok c ∧
      inverseResult c [0, 1, 0, 1, 0, 0, 1, 1, 0, 0] = .ok [0, 1, 0, 1, 0, 0, 0, 1]) ∧
    (∀ q, q.length = 8 → AllBits q →
      mainResult q [0, 1, 0, 1, 0, 0, 1, 1, 0, 0]
        = mainResult [0, 1, 0, 1, 0, 0, 0, 1] [0, 1, 0, 1, 0, 0, 1, 1, 0, 0] →
      q = [0, 1, 0, 1, 0, 0, 0, 1]) :=
  inverseResult_mainResult [0, 1, 0, 1, 0, 0, 0, 1] [0, 1, 0, 1, 0, 0, 1, 1, 0, 0]
    (by decide) (by decide) (by decide)

/-- C19: for a block of 8 bits, a key of 10 elements and either flag,
`function_with_key` applied twice with the same key and flag returns the
block. -/
theorem function_with_key_involution (b k : List Int) (f : Int)
    (hb : b.length = 8) (hk : k.length = 10) (hbb : AllBits b) :
    ∃ r, function_with_key b k f = .ok r ∧ function_with_key r k f = .ok b := by
  refine ⟨_, function_with_key_eq f hb hk, ?_⟩
  rw [function_with_key_eq f (roundValue_length hb (subKey_length k _)) hk,
    roundValue_involutive hb (subKey_length k _) hbb]

/-- C19 (witness): the block 1011 0110 under the key 1010000010 and the
flag 0. -/
theorem function_with_key_involution_witness :
    ∃ r, function_with_key [1, 0, 1, 1, 0, 1, 1, 0] [1, 0, 1, 0, 0, 0, 0, 0, 1, 0] 0 = .ok r ∧
      function_with_key r [1, 0, 1, 0, 0, 0, 0, 0, 1, 0] 0 = .ok [1, 0, 1, 1, 0, 1, 1, 0] :=
  function_with_key_involution [1, 0, 1, 1, 0, 1, 1, 0] [1, 0, 1, 0, 0, 0, 0, 0, 1, 0] 0
    (by decide) (by decide) (by decide)

/-- C20: on a bit block and a bit key, `function_with_key(b, k, 0)` is the
Feistel round computed with the subkey `P8(q)`, where `q` merges the halves of
`P10(k)` after three `leftShift` calls on each, which rotate a half left by
three positions. -/
theorem second_round_subkey_three_shifts (b k : List Int)
    (hb : b.length = 8) (hk : k.length = 10) (hbb : AllBits b) (hkb : AllBits k) :
    ∃ p l r l3 r3 q K,
      P10 k = .ok p ∧ splitArray p 10 1 = .ok l ∧ splitArray p 10 0 = .ok r ∧
      (leftShift l >>= leftShift >>= leftShift) = .ok l3 ∧ l3 = l.rotate 3 ∧
      (leftShift r >>= leftShift >>= leftShift) = .ok r3 ∧ r3 = r.rotate 3 ∧
      mergeArrays l3 5 r3 5 = .ok q ∧ P8 q = .ok K ∧
      function_with_key b k 0 = .ok (Spec.roundWithSubKey b K) := by
  have h := function_with_key_second hb hk
  rw [roundValue_eq_spec hb (subKey_length k 3) hbb (allBits_subKey hk hkb).2] at h
  obtain ⟨k0, k1, k2, k3, k4, k5, k6, k7, k8, k9, rfl⟩ := eq_of_length_10 hk
  rw [Spec.subKey_3] at h
  refine ⟨[k2, k4, k1, k6, k3, k9, k0, k8, k7, k5], [k2, k4, k1, k6, k3], [k9, k0, k8, k7, k5],
    [k6, k3, k2, k4, k1], [k7, k5, k9, k0, k8], [k6, k3, k2, k4, k1, k7, k5, k9, k0, k8],
    [k7, k2, k5, k4, k9, k1, k8, k0], P10_eq _ _ _ _ _ _ _ _ _ _,
    splitArray_10_left _ _ _ _ _ _ _ _ _ _, splitArray_10_right _ _ _ _ _ _ _ _ _ _,
    ?_, ?_, ?_, ?_, mergeArrays_5 _ _ _ _ _ _ _ _ _ _, P8_eq _ _ _ _ _ _ _ _ _ _, h⟩
  · simp only [leftShift_eq, ok_bind]
  · simp [List.rotate]
  · simp only [leftShift_eq, ok_bind]
  · simp [List.rotate]

/-- C20 (witness): the second round of the zero block under the key
1000000000. -/
theorem second_round_subkey_three_shifts_witness :
    ∃ p l r l3 r3 q K,
      P10 [1, 0, 0, 0, 0, 0, 0, 0, 0, 0] = .ok p ∧
      splitArray p 10 1 = .ok l ∧ splitArray p 10 0 = .ok r ∧
      (leftShift l >>= leftShift >>= leftShift) = .ok l3 ∧ l3 = l.rotate 3 ∧
      (leftShift r >>= leftShift >>= leftShift) = .ok r3 ∧ r3 = r.rotate 3 ∧
      mergeArrays l3 5 r3 5 = .ok q ∧ P8 q = .ok K ∧
      function_with_key [0, 0, 0, 0, 0, 0, 0, 0] [1, 0, 0, 0, 0, 0, 0, 0, 0, 0] 0
        = .ok (Spec.roundWithSubKey [0, 0, 0, 0, 0, 0, 0, 0] K) :=
  second_round_subkey_three_shifts [0, 0, 0, 0, 0, 0, 0, 0] [1, 0, 0, 0, 0, 0, 0, 0, 0, 0]
    (by decide) (by decide) (by decide) (by decide)

/-! ## Loops that fill a block -/

theorem contents_map_some (l : List Int) : contents (l.map some) = .ok l := by
  induction l with
  | nil => rfl
  | cons v vs ih =>
    simp only [List.map_cons, contents, ih]
    rfl

theorem set_prefix_none (pre : List Int) (n : Nat) (post : Buf) (v : Int) :
    (pre.map some ++ (List.replicate (n + 1) none ++ post)).set pre.length (some v)
      = (pre ++ [v]).map some ++ (List.replicate n none ++ post) := by
  induction pre with
  | nil => simp [List.replicate_succ]
  | cons a as ih => simpa using ih

theorem write_prefix_none (pre : List Int) (n : Nat) (post : Buf) (v : Int) :
    write (pre.map some ++ (List.replicate (n + 1) none ++ post)) pre.length v
      = .ok ((pre ++ [v]).map some ++ (List.replicate n none ++ post)) := by
  unfold write
  rw [if_pos (by simp), set_prefix_none]

/-- A loop whose iteration `i + j` writes `vals[j]` at index `i + j` fills the
unwritten cells that follow the written prefix with `vals`. -/
theorem forLoop_fill (body : Nat → Buf → Res Buf) :
    ∀ (vals : List Int) (i : Nat) (pre : List Int) (post : Buf),
      pre.length = i →
      (∀ j (h : j < vals.length) (p : Buf), body (i + j) p = write p (i + j) vals[j]) →
      forLoop body vals.length i (pre.map some ++ (List.replicate vals.length none ++ post))
        = .ok ((pre ++ vals).map some ++ post)
  | [], i, pre, post, _, _ => by simp [forLoop]
  | v :: vs, i, pre, post, hpre, hbody => by
    have h0 := hbody 0 (by simp) (pre.map some ++ (List.replicate (vs.length + 1) none ++ post))
    simp only [Nat.add_zero, List.getElem_cons_zero] at h0
    simp only [List.length_cons, forLoop, h0]
    rw [← hpre, write_prefix_none, ok_bind]
    have ih := forLoop_fill body vs (pre.length + 1) (pre ++ [v]) post (by simp)
      (fun j h p => by
        have := hbody (j + 1) (by simp; omega) p
        simp only [List.getElem_cons_succ] at this
        rw [← hpre] at this
        rw [Nat.add_assoc, Nat.add_comm 1 j]
        exact this)
    simpa using ih

/-- The same for a loop that also counts: iteration `k + t`, entered with the
counter at `j + t`, writes `vals[t]` after the written prefix and increments
the counter. -/
theorem forLoop_fill_counter (body : Nat → Buf × Nat → Res (Buf × Nat)) :
    ∀ (vals : List Int) (k j : Nat) (pre : List Int) (post : Buf),
      (∀ t (h : t < vals.length) (p : Buf),
        body (k + t) (p, j + t)
          = write p (pre.length + t) vals[t] >>= fun p => .ok (p, j + t + 1)) →
      forLoop body vals.length k
          (pre.map some ++ (List.replicate vals.length none ++ post), j)
        = .ok ((pre ++ vals).map some ++ post, j + vals.length)
  | [], k, j, pre, post, _ => by simp [forLoop]
  | v :: vs, k, j, pre, post, hbody => by
    have h0 := hbody 0 (by simp) (pre.map some ++ (List.replicate (vs.length + 1) none ++ post))
    simp only [Nat.add_zero, List.getElem_cons_zero] at h0
    simp only [List.length_cons, forLoop, h0]
    rw [write_prefix_none, ok_bind, ok_bind]
    have ih := forLoop_fill_counter body vs (k + 1) (j + 1) (pre ++ [v]) post
      (fun t h p => by
        have := hbody (t + 1) (by simp; omega) p
        simp only [List.getElem_cons_succ] at this
        rw [Nat.add_assoc, Nat.add_comm 1 t, Nat.add_assoc j, Nat.add_comm 1 t]
        simp only [List.length_append, List.length_singleton]
        rw [Nat.add_assoc pre.length, Nat.add_comm 1 t]
        exact this)
    rw [ih]
    simp [Nat.add_assoc, Nat.add_comm 1]

theorem rd_eq {a : List Int} {i : Nat} (h : i < a.length) : rd a i = .ok a[i] := by
  simp [rd, ofOption, List.getElem?_eq_getElem h]

/-! ## The array helpers at any size -/

theorem splitArray_left {array : List Int} {size : Nat} {left : Int} (hl : left ≠ 0)
    (h : size / 2 ≤ array.length) :
    splitArray array size left = .ok (array.take (size / 2)) := by
  have hlen : (array.take (size / 2)).length = size / 2 := by simp [h]
  have hloop := forLoop_fill_counter
    (fun _ (s : Buf × Nat) => do
      let newArray ← write s.1 (s.2 % (size / 2)) (← rd array (s.2))
      pure (newArray, s.2 + 1))
    (array.take (size / 2)) 0 0 [] []
    (fun t ht p => by
      rw [hlen] at ht
      have hr : rd array t = .ok (array.take (size / 2))[t] := by
        rw [rd_eq (by omega)]
        simp
      simp only [Nat.zero_add, List.length_nil, Nat.mod_eq_of_lt ht, hr]
      rfl)
  rw [hlen] at hloop
  simp only [List.map_nil, List.nil_append, List.append_nil, Nat.zero_add] at hloop
  simp only [splitArray, if_neg hl, malloc, hloop]
  exact contents_map_some _

theorem splitArray_right {array : List Int} {size : Nat}
    (h : size / 2 + size / 2 ≤ array.length) :
    splitArray array size 0 = .ok ((array.drop (size / 2)).take (size / 2)) := by
  have hlen : ((array.drop (size / 2)).take (size / 2)).length = size / 2 := by
    simp
    omega
  have hloop := forLoop_fill_counter
    (fun _ (s : Buf × Nat) => do
      let newArray ← write s.1 (s.2 % (size / 2)) (← rd array (s.2))
      pure (newArray, s.2 + 1))
    ((array.drop (size / 2)).take (size / 2)) 0 (size / 2) [] []
    (fun t ht p => by
      rw [hlen] at ht
      have hr : rd array (size / 2 + t) = .ok ((array.drop (size / 2)).take (size / 2))[t] := by
        rw [rd_eq (by omega)]
        simp
      have hm : (size / 2 + t) % (size / 2) = t := by
        rw [Nat.add_mod_left, Nat.mod_eq_of_lt ht]
      simp only [Nat.zero_add, List.length_nil, hm, hr]
      rfl)
  rw [hlen] at hloop
  simp only [List.map_nil, List.nil_append, List.append_nil] at hloop
  simp only [splitArray, if_true, malloc, hloop]
  exact contents_map_some _

theorem mergeArrays_eq {a1 a2 : List Int} {s1 s2 : Nat}
    (h1 : s1 ≤ a1.length) (h2 : s2 ≤ a2.length) :
    mergeArrays a1 s1 a2 s2 = .ok (a1.take s1 ++ a2.take s2) := by
  have hl1 : (a1.take s1).length = s1 := by simp [h1]
  have hl2 : (a2.take s2).length = s2 := by simp [h2]
  have hloop1 := forLoop_fill
    (fun i (a : Buf) => do write a i (← rd a1 i))
    (a1.take s1) 0 [] (List.replicate s2 none) rfl
    (fun j hj p => by
      rw [hl1] at hj
      have hr : rd a1 (0 + j) = .ok (a1.take s1)[j] := by
        rw [rd_eq (by omega)]
        simp
      simp only [hr]
      rfl)
  have hloop2 := forLoop_fill
    (fun i (a : Buf) => do write a i (← rd a2 (i - s1)))
    (a2.take s2) s1 (a1.take s1) [] hl1
    (fun j hj p => by
      rw [hl2] at hj
      have hr : rd a2 (s1 + j - s1) = .ok (a2.take s2)[j] := by
        rw [Nat.add_sub_cancel_left, rd_eq (by omega)]
        simp
      simp only [hr]
      rfl)
  rw [hl1] at hloop1
  rw [hl2] at hloop2
  simp only [List.map_nil, List.nil_append, List.append_nil] at hloop1 hloop2
  have hm : malloc (s1 + s2) = List.replicate s1 none ++ List.replicate s2 none := by
    unfold malloc
    rw [List.replicate_add]
  unfold mergeArrays
  rw [hm]
  simp only [hloop1, ok_bind]
  rw [hloop2, ok_bind]
  exact contents_map_some _

theorem XOR_Arrays_eq {a b : List Int} {size : Nat}
    (ha : size ≤ a.length) (hb : size ≤ b.length) :
    XOR_Arrays a b size = .ok (List.zipWith xorCell (a.take size) (b.take size)) := by
  have hl : (List.zipWith xorCell (a.take size) (b.take size)).length = size := by
    simp [ha, hb]
  have hloop := forLoop_fill
    (fun i (p : Buf) => do write p i (xorCell (← rd a i) (← rd b i)))
    (List.zipWith xorCell (a.take size) (b.take size)) 0 [] [] rfl
    (fun j hj p => by
      rw [hl] at hj
      have hra : rd a (0 + j) = .ok a[j] := by
        rw [Nat.zero_add, rd_eq (by omega)]
      have hrb : rd b (0 + j) = .ok b[j] := by
        rw [Nat.zero_add, rd_eq (by omega)]
      simp only [hra, hrb, List.getElem_zipWith, List.getElem_take]
      rfl)
  rw [hl] at hloop
  simp only [List.map_nil, List.nil_append, List.append_nil] at hloop
  simp only [XOR_Arrays, malloc, hloop, ok_bind]
  exact contents_map_some _

/-! ## Splitting, merging and XOR at any size -/

theorem xorCell_eq_exactly_one (x y : Int) :
    xorCell x y = if (x ≠ 0 ∧ y = 0) ∨ (x = 0 ∧ y ≠ 0) then 1 else 0 := by
  by_cases hx : x = 0 <;> by_cases hy : y = 0 <;> simp [xorCell, hx, hy]

theorem zipWith_xorCell_of_bits :
    ∀ (a b : List Int), AllBits a → AllBits b →
      List.zipWith xorCell a b = List.zipWith (fun x y => (x + y) % 2) a b
  | [], _, _, _ => by simp
  | _ :: _, [], _, _ => by simp
  | x :: a, y :: b, ha, hb => by
    rw [allBits_cons] at ha hb
    simp only [List.zipWith_cons_cons, xorCell_of_bits ha.1 hb.1,
      zipWith_xorCell_of_bits a b ha.2 hb.2]

theorem allBits_zipWith_xorCell : ∀ (a b : List Int), AllBits (List.zipWith xorCell a b)
  | [], _ => by simpa using allBits_nil
  | _ :: _, [] => by simpa using allBits_nil
  | x :: a, y :: b => by
    rw [List.zipWith_cons_cons, allBits_cons]
    exact ⟨isBit_xorCell x y, allBits_zipWith_xorCell a b⟩

/-! ## The conversion loop -/

theorem convertBinaryToDecimalLoop_natCast :
    ∀ (fuel m : Nat) (decimalNumber : Int) (i : Nat), m < fuel →
      convertBinaryToDecimalLoop fuel (m : Int) decimalNumber i
        = .ok (decimalNumber + 2 ^ i * Nat.ofDigits (2 : Int) (Nat.digits 10 m))
  | 0, _, _, _, h => absurd h (Nat.not_lt_zero _)
  | fuel + 1, m, decimalNumber, i, h => by
    by_cases hm : m = 0
    · subst hm
      simp [convertBinaryToDecimalLoop, Nat.ofDigits]
    · have hpos : 0 < m := Nat.pos_of_ne_zero hm
      have hne : (m : Int) ≠ 0 := by exact_mod_cast hm
      have hlt : m / 10 < fuel := by omega
      have ih := convertBinaryToDecimalLoop_natCast fuel (m / 10)
        (decimalNumber + ((m % 10 : Nat) : Int) * 2 ^ i) (i + 1) hlt
      have e1 : (m : Int).tdiv 10 = ((m / 10 : Nat) : Int) := by
        rw [Int.tdiv_eq_ediv (by omega) (by omega)]
        omega
      have e2 : (m : Int).tmod 10 = ((m % 10 : Nat) : Int) := by
        rw [Int.tmod_eq_emod (by omega) (by omega)]
        omega
      simp only [convertBinaryToDecimalLoop, if_pos hne, e1, e2]
      rw [ih, Nat.digits_def' (by decide) hpos]
      rw [Nat.ofDigits]
      congr 1
      ring

theorem convertBinaryToDecimal_natCast (m : Nat) :
    convertBinaryToDecimal (m : Int)
      = .ok ((Nat.ofDigits 2 (Nat.digits 10 m) : Nat) : Int) := by
  unfold convertBinaryToDecimal
  rw [Int.natAbs_ofNat, convertBinaryToDecimalLoop_natCast _ _ _ _ (Nat.lt_succ_self m)]
  congr 1
  rw [Nat.coe_int_ofDigits]
  simp

/-! ## Claims, third part -/

/-- C15: for an array `a` of even length `n`, `splitArray(a, n, 1)` is the
first `n/2` elements of `a`, `splitArray(a, n, 0)` the last `n/2`, and
`mergeArrays` of the two gives `a` back. -/
theorem splitArray_mergeArrays (a : List Int) (n : Nat)
    (hn : a.length = n) (he : n % 2 = 0) :
    splitArray a n 1 = .ok (a.take (n / 2)) ∧
    splitArray a n 0 = .ok (a.drop (n / 2)) ∧
    (a.take (n / 2)).length = n / 2 ∧ (a.drop (n / 2)).length = n / 2 ∧
    (splitArray a n 1 >>= fun l => splitArray a n 0 >>= fun r =>
      mergeArrays l (n / 2) r (n / 2)) = .ok a := by
  have hl : (a.take (n / 2)).length = n / 2 := by
    simp
    omega
  have hr : (a.drop (n / 2)).length = n / 2 := by
    simp
    omega
  have h1 : splitArray a n 1 = .ok (a.take (n / 2)) :=
    splitArray_left (by decide) (by omega)
  have h0 : splitArray a n 0 = .ok (a.drop (n / 2)) := by
    rw [splitArray_right (by omega)]
    congr 1
    apply List.take_of_length_le
    omega
  refine ⟨h1, h0, hl, hr, ?_⟩
  rw [h1, ok_bind, h0, ok_bind, mergeArrays_eq (by omega) (by omega)]
  congr 1
  rw [List.take_of_length_le (Nat.le_of_eq hl), List.take_of_length_le (Nat.le_of_eq hr),
    List.take_append_drop]

/-- C15 (witness): the array [5, 6, 7, 8, 9, 10] of length 6. -/
theorem splitArray_mergeArrays_witness :
    splitArray [5, 6, 7, 8, 9, 10] 6 1 = .ok ([5, 6, 7, 8, 9, 10].take (6 / 2)) ∧
    splitArray [5, 6, 7, 8, 9, 10] 6 0 = .ok ([5, 6, 7, 8, 9, 10].drop (6 / 2)) ∧
    (([5, 6, 7, 8, 9, 10] : List Int).take (6 / 2)).length = 6 / 2 ∧
    (([5, 6, 7, 8, 9, 10] : List Int).drop (6 / 2)).length = 6 / 2 ∧
    (splitArray [5, 6, 7, 8, 9, 10] 6 1 >>= fun l =>
      splitArray [5, 6, 7, 8, 9, 10] 6 0 >>= fun r =>
      mergeArrays l (6 / 2) r (6 / 2)) = .ok [5, 6, 7, 8, 9, 10] :=
  splitArray_mergeArrays [5, 6, 7, 8, 9, 10] 6 (by decide) (by decide)

/-- C16: for arrays `a` and `b` of length `size`, `XOR_Arrays(a, b, size)` has
length `size`, its element `i` is 1 when exactly one of `a[i]`, `b[i]` is
non-zero and 0 otherwise, every element is in {0,1}, and on bit arrays element
`i` is `(a[i] + b[i]) mod 2`. -/
theorem XOR_Arrays_elementwise (a b : List Int) (size : Nat)
    (ha : a.length = size) (hb : b.length = size) :
    ∃ p, XOR_Arrays a b size = .ok p ∧ p.length = size ∧
      p = List.zipWith
        (fun x y => if (x ≠ 0 ∧ y = 0) ∨ (x = 0 ∧ y ≠ 0) then 1 else 0) a b ∧
      (∀ i (h1 : i < a.length) (h2 : i < b.length),
        p[i]? = some (if (a[i] ≠ 0 ∧ b[i] = 0) ∨ (a[i] = 0 ∧ b[i] ≠ 0) then 1 else 0)) ∧
      AllBits p ∧
      (AllBits a → AllBits b →
        p = List.zipWith (fun x y => (x + y) % 2) a b ∧
        ∀ i (h1 : i < a.length) (h2 : i < b.length), p[i]? = some ((a[i] + b[i]) % 2)) := by
  have hx : XOR_Arrays a b size = .ok (List.zipWith xorCell a b) := by
    rw [XOR_Arrays_eq (by omega) (by omega), List.take_of_length_le (by omega),
      List.take_of_length_le (by omega)]
  have hf : xorCell = fun x y => if (x ≠ 0 ∧ y = 0) ∨ (x = 0 ∧ y ≠ 0) then 1 else 0 := by
    funext x y
    exact xorCell_eq_exactly_one x y
  refine ⟨_, hx, by simp [ha, hb], by rw [hf], ?_, allBits_zipWith_xorCell a b, ?_⟩
  · intro i h1 h2
    rw [List.getElem?_eq_getElem (by simp [h1, h2]), List.getElem_zipWith,
      xorCell_eq_exactly_one]
  · intro hab hbb
    refine ⟨zipWith_xorCell_of_bits a b hab hbb, ?_⟩
    intro i h1 h2
    rw [zipWith_xorCell_of_bits a b hab hbb, List.getElem?_eq_getElem (by simp [h1, h2]),
      List.getElem_zipWith]

/-- C16 (witness): `XOR_Arrays` on [0, 5, 0, -3] and [0, 0, 7, 2]. -/
theorem XOR_Arrays_elementwise_witness :
    XOR_Arrays [0, 5, 0, -3] [0, 0, 7, 2] 4 = .ok [0, 1, 1, 0] := by
  obtain ⟨p, hp, -, hz, -⟩ :=
    XOR_Arrays_elementwise [0, 5, 0, -3] [0, 0, 7, 2] 4 (by decide) (by decide)
  rw [hp, hz]
  decide

/-- C17: for every non-negative `n`, in particular one whose decimal digits
`d_j ... d_1 d_0` are all 0 or 1, `convertBinaryToDecimal(n)` returns the sum
over `i` of `d_i * 2^i`, the digit string read as a binary number; it maps 0,
1, 10, 11 to 0, 1, 2, 3. -/
theorem convertBinaryToDecimal_binary_value (n : Nat) :
    convertBinaryToDecimal (n : Int)
      = .ok ((((Nat.digits 10 n).mapIdx fun i d => d * 2 ^ i).sum : Nat) : Int) ∧
    convertBinaryToDecimal (n : Int)
      = .ok ((Nat.ofDigits 2 (Nat.digits 10 n) : Nat) : Int) ∧
    convertBinaryToDecimal 0 = .ok 0 ∧ convertBinaryToDecimal 1 = .ok 1 ∧
    convertBinaryToDecimal 10 = .ok 2 ∧ convertBinaryToDecimal 11 = .ok 3 := by
  refine ⟨?_, convertBinaryToDecimal_natCast n, by decide, by decide, by decide, by decide⟩
  rw [convertBinaryToDecimal_natCast n, Nat.ofDigits_eq_sum_mapIdx]

/-! ## Reading the arguments -/

theorem proc_pure {α : Type} (a : α) : (pure a : Proc α) = Except.ok a := rfl

theorem proc_ok_bind {α β : Type} (a : α) (f : α → Proc β) : (Except.ok a >>= f) = f a := rfl

theorem proc_error_bind {α β : Type} (e : Halt) (f : α → Proc β) :
    ((Except.error e : Proc α) >>= f) = Except.error e := rfl

theorem minusZero_eq_zero {c : Char} : minusZero c = 0 ↔ c = '0' := by
  constructor
  · intro h
    have h48 : c.toNat = 48 := by
      unfold minusZero at h
      have : (('0').toNat : Int) = 48 := by decide
      omega
    rw [← Char.ofNat_toNat c, h48]
  · rintro rfl
    decide

theorem minusZero_eq_one {c : Char} : minusZero c = 1 ↔ c = '1' := by
  constructor
  · intro h
    have h49 : c.toNat = 49 := by
      unfold minusZero at h
      have : (('0').toNat : Int) = 48 := by decide
      omega
    rw [← Char.ofNat_toNat c, h49]
  · rintro rfl
    decide

theorem isBitChar_iff (c : Char) : IsBitChar c ↔ (minusZero c = 0 ∨ minusZero c = 1) := by
  rw [minusZero_eq_zero, minusZero_eq_one]
  rfl

theorem isdigit_of_isBitChar {c : Char} (h : IsBitChar c) : isdigit c = true := by
  rcases h with rfl | rfl <;> decide

theorem intAt_set {a : List Int} {i : Nat} (v : Int) (h : i < a.length) :
    intAt (a.set i v) i = .ok v := by
  simp [intAt, h]

theorem charAt_eq {s : CString} {i : Nat} (h : i < s.length) :
    charAt s i = .ok (s.getD i (Char.ofNat 0)) := by
  simp [charAt, h]

theorem readArgumentsBody_eq {temp1 temp2 : CString} {i : Nat} {s : List Int × List Int}
    (hi : i < 10) (h1 : temp1.length = 8) (h2 : temp2.length = 10)
    (hs1 : s.1.length = 8) (hs2 : s.2.length = 10) :
    readArgumentsBody temp1 temp2 i s
      = if NoDigitAt temp1 temp2 i then .error (.exit 2)
        else if GoodAt temp1 temp2 i then .ok (stored temp1 temp2 i s)
        else .error (.exit 3) := by
  have hc2 := charAt_eq (s := temp2) (i := i) (by omega)
  have hv2 := intAt_set (a := s.2) (i := i) (minusZero (temp2.getD i (Char.ofNat 0))) (by omega)
  have ha2 : assign s.2 i (minusZero (temp2.getD i (Char.ofNat 0)))
      = .ok (s.2.set i (minusZero (temp2.getD i (Char.ofNat 0)))) := by
    simp [assign, hs2, hi]
  by_cases h8 : i < 8
  · have hc1 := charAt_eq (s := temp1) (i := i) (by omega)
    have hv1 := intAt_set (a := s.1) (i := i) (minusZero (temp1.getD i (Char.ofNat 0)))
      (by omega)
    have ha1 : assign s.1 i (minusZero (temp1.getD i (Char.ofNat 0)))
        = .ok (s.1.set i (minusZero (temp1.getD i (Char.ofNat 0)))) := by
      simp [assign, hs1, h8]
    unfold readArgumentsBody NoDigitAt GoodAt stored
    simp only [h8, if_true, hc1, hc2, ha1, ha2, hv1, hv2, proc_ok_bind, proc_pure,
      isBitChar_iff]
    generalize isdigit (temp1.getD i (Char.ofNat 0)) = d1
    generalize isdigit (temp2.getD i (Char.ofNat 0)) = d2
    generalize minusZero (temp1.getD i (Char.ofNat 0)) = v1
    generalize minusZero (temp2.getD i (Char.ofNat 0)) = v2
    cases d1 <;> cases d2 <;> by_cases a0 : v1 = 0 <;> by_cases a1 : v1 = 1 <;>
      by_cases c0 : v2 = 0 <;> by_cases c1 : v2 = 1 <;> simp [a0, a1, c0, c1, proc_ok_bind]
  · unfold readArgumentsBody NoDigitAt GoodAt stored
    simp only [h8, if_false, hc2, ha2, hv2, proc_ok_bind, proc_pure, isBitChar_iff]
    generalize isdigit (temp2.getD i (Char.ofNat 0)) = d2
    generalize minusZero (temp2.getD i (Char.ofNat 0)) = v2
    cases d2 <;> by_cases c0 : v2 = 0 <;> by_cases c1 : v2 = 1 <;>
      simp [c0, c1, proc_ok_bind]

theorem not_noDigitAt_of_goodAt {temp1 temp2 : CString} {i : Nat}
    (h : GoodAt temp1 temp2 i) : ¬ NoDigitAt temp1 temp2 i := by
  rintro (⟨h8, hd⟩ | hd)
  · rw [isdigit_of_isBitChar (h.1 h8)] at hd
    cases hd
  · rw [isdigit_of_isBitChar h.2] at hd
    cases hd

theorem not_goodAt_of_noDigitAt {temp1 temp2 : CString} {i : Nat}
    (h : NoDigitAt temp1 temp2 i) : ¬ GoodAt temp1 temp2 i :=
  fun hg => not_noDigitAt_of_goodAt hg h

theorem stored_length (temp1 temp2 : CString) (i : Nat) {s : List Int × List Int}
    (hs1 : s.1.length = 8) (hs2 : s.2.length = 10) :
    (stored temp1 temp2 i s).1.length = 8 ∧ (stored temp1 temp2 i s).2.length = 10 := by
  unfold stored
  constructor
  · split <;> simp [hs1]
  · simp [hs2]

/-- While the characters are all `0` or `1` the loop of `readArguments` runs
through and stores their values. -/
theorem forLoopProc_good {temp1 temp2 : CString}
    (h1 : temp1.length = 8) (h2 : temp2.length = 10) :
    ∀ (count i : Nat) (s : List Int × List Int), i + count ≤ 10 →
      s.1.length = 8 → s.2.length = 10 →
      (∀ j, i ≤ j → j < i + count → GoodAt temp1 temp2 j) →
      forLoopProc (readArgumentsBody temp1 temp2) count i s
        = .ok (storedAll temp1 temp2 count i s)
  | 0, _, _, _, _, _, _ => rfl
  | count + 1, i, s, hic, hs1, hs2, hg => by
    have hgi := hg i (Nat.le_refl i) (by omega)
    have hl := stored_length temp1 temp2 i hs1 hs2
    simp only [forLoopProc, storedAll]
    rw [readArgumentsBody_eq (by omega) h1 h2 hs1 hs2, if_neg (not_noDigitAt_of_goodAt hgi),
      if_pos hgi, proc_ok_bind]
    exact forLoopProc_good h1 h2 count (i + 1) _ (by omega) hl.1 hl.2
      (fun j hj hj2 => hg j (by omega) (by omega))

/-- The loop of `readArguments` stops at the first index `m` with a character
other than `0` and `1`: with `exit(2)` when one of the characters there is not
a digit, with `exit(3)` otherwise. -/
theorem forLoopProc_bad {temp1 temp2 : CString}
    (h1 : temp1.length = 8) (h2 : temp2.length = 10) (m : Nat)
    (hm : ¬ GoodAt temp1 temp2 m) :
    ∀ (count i : Nat) (s : List Int × List Int), i + count ≤ 10 →
      s.1.length = 8 → s.2.length = 10 → i ≤ m → m < i + count →
      (∀ j, i ≤ j → j < m → GoodAt temp1 temp2 j) →
      forLoopProc (readArgumentsBody temp1 temp2) count i s
        = .error (.exit (if NoDigitAt temp1 temp2 m then 2 else 3))
  | 0, _, _, _, _, _, him, hmi, _ => by omega
  | count + 1, i, s, hic, hs1, hs2, him, hmi, hg => by
    simp only [forLoopProc]
    rw [readArgumentsBody_eq (by omega) h1 h2 hs1 hs2]
    by_cases hi : i = m
    · subst hi
      by_cases hn : NoDigitAt temp1 temp2 i
      · rw [if_pos hn, if_pos hn, proc_error_bind]
      · rw [if_neg hn, if_neg hm, if_neg hn, proc_error_bind]
    · have hgi := hg i (Nat.le_refl i) (by omega)
      have hl := stored_length temp1 temp2 i hs1 hs2
      rw [if_neg (not_noDigitAt_of_goodAt hgi), if_pos hgi, proc_ok_bind]
      exact forLoopProc_bad h1 h2 m hm count (i + 1) _ (by omega) hl.1 hl.2 (by omega)
        (by omega) (fun j hj hj2 => hg j (by omega) hj2)

theorem exists_first_bad {P : Nat → Prop} {n : Nat} (h : ¬ ∀ j, j < n → P j) :
    ∃ m, m < n ∧ ¬ P m ∧ ∀ j, j < m → P j := by
  classical
  have hex : ∃ m, m < n ∧ ¬ P m := by
    by_contra hc
    exact h (fun j hj => by
      by_contra hp
      exact hc ⟨j, hj, hp⟩)
  refine ⟨Nat.find hex, (Nat.find_spec hex).1, (Nat.find_spec hex).2, ?_⟩
  intro j hj
  by_contra hp
  exact Nat.find_min hex hj ⟨Nat.lt_trans hj (Nat.find_spec hex).1, hp⟩

theorem storedAll_eq {temp1 temp2 : CString} {s : List Int × List Int}
    (h1 : temp1.length = 8) (h2 : temp2.length = 10)
    (hs1 : s.1.length = 8) (hs2 : s.2.length = 10) :
    storedAll temp1 temp2 10 0 s = (temp1.map minusZero, temp2.map minusZero) := by
  obtain ⟨p, k⟩ := s
  match temp1, h1, temp2, h2, p, hs1, k, hs2 with
  | [c0, c1, c2, c3, c4, c5, c6, c7], _, [d0, d1, d2, d3, d4, d5, d6, d7, d8, d9], _,
    [p0, p1, p2, p3, p4, p5, p6, p7], _, [k0, k1, k2, k3, k4, k5, k6, k7, k8, k9], _ => rfl

theorem goodAt_all_iff {temp1 temp2 : CString}
    (h1 : temp1.length = 8) (h2 : temp2.length = 10) :
    (∀ j, j < 10 → GoodAt temp1 temp2 j) ↔
      ((∀ c ∈ temp1, IsBitChar c) ∧ (∀ c ∈ temp2, IsBitChar c)) := by
  match temp1, h1, temp2, h2 with
  | [c0, c1, c2, c3, c4, c5, c6, c7], _, [d0, d1, d2, d3, d4, d5, d6, d7, d8, d9], _ =>
    constructor
    · intro h
      have g0 := h 0 (by decide)
      have g1 := h 1 (by decide)
      have g2 := h 2 (by decide)
      have g3 := h 3 (by decide)
      have g4 := h 4 (by decide)
      have g5 := h 5 (by decide)
      have g6 := h 6 (by decide)
      have g7 := h 7 (by decide)
      have g8 := h 8 (by decide)
      have g9 := h 9 (by decide)
      simp only [GoodAt, List.getD_cons_zero, List.getD_cons_succ] at g0 g1 g2 g3 g4 g5 g6 g7 g8 g9
      simp only [List.mem_cons, List.mem_singleton, forall_eq_or_imp, forall_eq]
      simp only [List.not_mem_nil, false_imp_iff, implies_true, and_true]
      exact ⟨⟨g0.1 (by decide), g1.1 (by decide), g2.1 (by decide), g3.1 (by decide),
        g4.1 (by decide), g5.1 (by decide), g6.1 (by decide), g7.1 (by decide)⟩,
        g0.2, g1.2, g2.2, g3.2, g4.2, g5.2, g6.2, g7.2, g8.2, g9.2⟩
    · rintro ⟨ht1, ht2⟩ j hj
      simp only [List.mem_cons, List.mem_singleton, forall_eq_or_imp, forall_eq] at ht1 ht2
      simp only [List.not_mem_nil, false_imp_iff, implies_true, and_true] at ht1 ht2
      obtain ⟨a0, a1, a2, a3, a4, a5, a6, a7⟩ := ht1
      obtain ⟨b0, b1, b2, b3, b4, b5, b6, b7, b8, b9⟩ := ht2
      interval_cases j <;>
        simp only [GoodAt, List.getD_cons_zero, List.getD_cons_succ] <;>
        first
          | exact ⟨fun _ => a0, b0⟩ | exact ⟨fun _ => a1, b1⟩ | exact ⟨fun _ => a2, b2⟩
          | exact ⟨fun _ => a3, b3⟩ | exact ⟨fun _ => a4, b4⟩ | exact ⟨fun _ => a5, b5⟩
          | exact ⟨fun _ => a6, b6⟩ | exact ⟨fun _ => a7, b7⟩
          | exact ⟨fun h => absurd h (by decide), b8⟩
          | exact ⟨fun h => absurd h (by decide), b9⟩

/-- With two arguments of lengths 8 and 10, `readArguments` runs its loop. -/
theorem readArguments_two {plaintext key : List Int} {prog s1 s2 : CString}
    (h1 : s1.length = 8) (h2 : s2.length = 10) :
    readArguments plaintext key 3 [prog, s1, s2]
      = forLoopProc (readArgumentsBody s1 s2) 10 0 (plaintext, key) := by
  simp [readArguments, argvAt, strlen, h1, h2, proc_ok_bind]

theorem readArguments_wrong_length {plaintext key : List Int} {prog s1 s2 : CString}
    (h : ¬ (s1.length = 8 ∧ s2.length = 10)) :
    readArguments plaintext key 3 [prog, s1, s2] = .error (.exit 1) := by
  have h' : s1.length ≠ 8 ∨ s2.length ≠ 10 := by
    by_cases h1 : s1.length = 8
    · exact Or.inr (fun h2 => h ⟨h1, h2⟩)
    · exact Or.inl h1
  simp [readArguments, argvAt, strlen, h', proc_ok_bind]

theorem allBits_map_minusZero {s : CString} (h : ∀ c ∈ s, IsBitChar c) :
    AllBits (s.map minusZero) := by
  intro x hx
  obtain ⟨c, hc, rfl⟩ := List.mem_map.mp hx
  exact (isBitChar_iff c).mp (h c hc)

/-- C12 (as the code behaves): with two arguments of lengths 8 and 10 and a
non-digit character in the plaintext string, `readArguments` calls `exit`. Let
`m` be the first index where the plaintext character (for `m < 8`) or the key
character is not a digit: the exit code is 2 when all the characters that
`readArguments` looks at before `m` are `0` or `1`, and 3 when a digit other
than `0` and `1` comes before `m`. -/
theorem readArguments_nondigit_plaintext (plaintext key : List Int) (prog s1 s2 : CString)
    (hp : plaintext.length = 8) (hk : key.length = 10)
    (h1 : s1.length = 8) (h2 : s2.length = 10) (hnd : ∃ c ∈ s1, isdigit c = false) :
    ∃ m, m < 10 ∧ NoDigitAt s1 s2 m ∧ (∀ j, j < m → ¬ NoDigitAt s1 s2 j) ∧
      ((∀ j, j < m → GoodAt s1 s2 j) →
        readArguments plaintext key 3 [prog, s1, s2] = .error (.exit 2)) ∧
      (¬ (∀ j, j < m → GoodAt s1 s2 j) →
        readArguments plaintext key 3 [prog, s1, s2] = .error (.exit 3)) := by
  obtain ⟨c, hc, hcd⟩ := hnd
  obtain ⟨i0, hi0, rfl⟩ := List.getElem_of_mem hc
  have hn0 : NoDigitAt s1 s2 i0 := by
    refine Or.inl ⟨by omega, ?_⟩
    rw [List.getD_eq_getElem _ _ hi0]
    exact hcd
  have hne : ¬ ∀ j, j < 10 → ¬ NoDigitAt s1 s2 j := fun h => h i0 (by omega) hn0
  obtain ⟨m, hm10, hmn, hmf⟩ := exists_first_bad hne
  have hmn' : NoDigitAt s1 s2 m := by
    by_contra h
    exact hmn h
  refine ⟨m, hm10, hmn', hmf, ?_, ?_⟩
  · intro hg
    rw [readArguments_two h1 h2,
      forLoopProc_bad h1 h2 m (not_goodAt_of_noDigitAt hmn') 10 0 _ (by omega) hp hk
        (Nat.zero_le m) (by omega) (fun j _ hj => hg j hj),
      if_pos hmn']
  · intro hg
    obtain ⟨m', hm', hbad, hgood⟩ := exists_first_bad hg
    rw [readArguments_two h1 h2,
      forLoopProc_bad h1 h2 m' hbad 10 0 _ (by omega) hp hk
        (Nat.zero_le m') (by omega) (fun j _ hj => hgood j hj),
      if_neg (hmf m' hm')]

/-- C12 (witness): the plaintext string `1a000000` with the key string
`0000000000` ends with `exit(2)`. -/
theorem readArguments_nondigit_plaintext_witness :
    ∃ m, m < 10 ∧
      NoDigitAt ['1', 'a', '0', '0', '0', '0', '0', '0']
        ['0', '0', '0', '0', '0', '0', '0', '0', '0', '0'] m ∧
      (∀ j, j < m → ¬ NoDigitAt ['1', 'a', '0', '0', '0', '0', '0', '0']
        ['0', '0', '0', '0', '0', '0', '0', '0', '0', '0'] j) ∧
      ((∀ j, j < m → GoodAt ['1', 'a', '0', '0', '0', '0', '0', '0']
          ['0', '0', '0', '0', '0', '0', '0', '0', '0', '0'] j) →
        readArguments [0, 1, 0, 1, 0, 0, 0, 1] [0, 1, 0, 1, 0, 0, 1, 1, 0, 0] 3
          [['s', 'd', 'e', 's'], ['1', 'a', '0', '0', '0', '0', '0', '0'],
            ['0', '0', '0', '0', '0', '0', '0', '0', '0', '0']] = .error (.exit 2)) ∧
      (¬ (∀ j, j < m → GoodAt ['1', 'a', '0', '0', '0', '0', '0', '0']
          ['0', '0', '0', '0', '0', '0', '0', '0', '0', '0'] j) →
        readArguments [0, 1, 0, 1, 0, 0, 0, 1] [0, 1, 0, 1, 0, 0, 1, 1, 0, 0] 3
          [['s', 'd', 'e', 's'], ['1', 'a', '0', '0', '0', '0', '0', '0'],
            ['0', '0', '0', '0', '0', '0', '0', '0', '0', '0']] = .error (.exit 3)) :=
  readArguments_nondigit_plaintext [0, 1, 0, 1, 0, 0, 0, 1] [0, 1, 0, 1, 0, 0, 1, 1, 0, 0]
    ['s', 'd', 'e', 's'] ['1', 'a', '0', '0', '0', '0', '0', '0']
    ['0', '0', '0', '0', '0', '0', '0', '0', '0', '0']
    (by decide) (by decide) (by decide) (by decide) ⟨'a', by decide, by decide⟩

/-- C12 (counterexample): the plaintext string `2a000000` has length 8 and
contains the non-digit `a`, the key string `0000000000` has length 10, and
`readArguments` ends with `exit(3)`, not `exit(2)`. -/
theorem readArguments_nondigit_exit_three :
    (['2', 'a', '0', '0', '0', '0', '0', '0'] : CString).length = 8 ∧
    (['0', '0', '0', '0', '0', '0', '0', '0', '0', '0'] : CString).length = 10 ∧
    isdigit 'a' = false ∧
    readArguments [0, 1, 0, 1, 0, 0, 0, 1] [0, 1, 0, 1, 0, 0, 1, 1, 0, 0] 3
        [['s', 'd', 'e', 's'], ['2', 'a', '0', '0', '0', '0', '0', '0'],
          ['0', '0', '0', '0', '0', '0', '0', '0', '0', '0']] = .error (.exit 3) ∧
    readArguments [0, 1, 0, 1, 0, 0, 0, 1] [0, 1, 0, 1, 0, 0, 1, 1, 0, 0] 3
        [['s', 'd', 'e', 's'], ['2', 'a', '0', '0', '0', '0', '0', '0'],
          ['0', '0', '0', '0', '0', '0', '0', '0', '0', '0']] ≠ .error (.exit 2) := by
  decide

/-- C13: with two argument strings `readArguments` returns exactly when the
first has length 8, the second has length 10 and all their characters are `0`
or `1`; the arrays then hold the numeric values of the characters, 8 and 10
elements in {0,1}.  With no argument it returns and leaves both arrays as they
were. -/
theorem readArguments_returns_iff (plaintext key : List Int) (prog s1 s2 : CString)
    (hp : plaintext.length = 8) (hk : key.length = 10) :
    ((∃ r, readArguments plaintext key 3 [prog, s1, s2] = .ok r) ↔
      (s1.length = 8 ∧ s2.length = 10 ∧
        (∀ c ∈ s1, c = '0' ∨ c = '1') ∧ (∀ c ∈ s2, c = '0' ∨ c = '1'))) ∧
    (∀ r, readArguments plaintext key 3 [prog, s1, s2] = .ok r →
      r = (s1.map minusZero, s2.map minusZero) ∧
      r.1.length = 8 ∧ r.2.length = 10 ∧ AllBits r.1 ∧ AllBits r.2) ∧
    readArguments plaintext key 1 [prog] = .ok (plaintext, key) := by
  have hgood : s1.length = 8 → s2.length = 10 →
      (∀ c ∈ s1, IsBitChar c) → (∀ c ∈ s2, IsBitChar c) →
      readArguments plaintext key 3 [prog, s1, s2]
        = .ok (s1.map minusZero, s2.map minusZero) := by
    intro h1 h2 hb1 hb2
    have hg := (goodAt_all_iff h1 h2).mpr ⟨hb1, hb2⟩
    rw [readArguments_two h1 h2,
      forLoopProc_good h1 h2 10 0 _ (by omega) hp hk (fun j _ hj => hg j (by omega)),
      storedAll_eq h1 h2 hp hk]
  have hret : ∀ r, readArguments plaintext key 3 [prog, s1, s2] = .ok r →
      s1.length = 8 ∧ s2.length = 10 ∧ (∀ c ∈ s1, IsBitChar c) ∧ (∀ c ∈ s2, IsBitChar c) := by
    intro r hr
    by_cases hlen : s1.length = 8 ∧ s2.length = 10
    · obtain ⟨h1, h2⟩ := hlen
      by_cases hg : ∀ j, j < 10 → GoodAt s1 s2 j
      · exact ⟨h1, h2, (goodAt_all_iff h1 h2).mp hg⟩
      · obtain ⟨m, hm, hbad, hfirst⟩ := exists_first_bad hg
        rw [readArguments_two h1 h2,
          forLoopProc_bad h1 h2 m hbad 10 0 _ (by omega) hp hk (Nat.zero_le m) (by omega)
            (fun j _ hj => hfirst j hj)] at hr
        cases hr
    · rw [readArguments_wrong_length hlen] at hr
      cases hr
  refine ⟨⟨fun ⟨r, hr⟩ => hret r hr, fun ⟨h1, h2, hb1, hb2⟩ => ⟨_, hgood h1 h2 hb1 hb2⟩⟩,
    ?_, by simp [readArguments, proc_pure]⟩
  intro r hr
  obtain ⟨h1, h2, hb1, hb2⟩ := hret r hr
  rw [hgood h1 h2 hb1 hb2] at hr
  injection hr with hr
  subst hr
  exact ⟨rfl, by simp [h1], by simp [h2], allBits_map_minusZero hb1,
    allBits_map_minusZero hb2⟩

/-- C13 (witness): the argument strings `10101010` and `1111100000`. -/
theorem readArguments_returns_iff_witness :
    readArguments [0, 1, 0, 1, 0, 0, 0, 1] [0, 1, 0, 1, 0, 0, 1, 1, 0, 0] 3
        [['s', 'd', 'e', 's'], ['1', '0', '1', '0', '1', '0', '1', '0'],
          ['1', '1', '1', '1', '1', '0', '0', '0', '0', '0']]
      = .ok ([1, 0, 1, 0, 1, 0, 1, 0], [1, 1, 1, 1, 1, 0, 0, 0, 0, 0]) ∧
    readArguments [0, 1, 0, 1, 0, 0, 0, 1] [0, 1, 0, 1, 0, 0, 1, 1, 0, 0] 1
        [['s', 'd', 'e', 's']]
      = .ok ([0, 1, 0, 1, 0, 0, 0, 1], [0, 1, 0, 1, 0, 0, 1, 1, 0, 0]) := by
  have h := readArguments_returns_iff [0, 1, 0, 1, 0, 0, 0, 1] [0, 1, 0, 1, 0, 0, 1, 1, 0, 0]
    ['s', 'd', 'e', 's'] ['1', '0', '1', '0', '1', '0', '1', '0']
    ['1', '1', '1', '1', '1', '0', '0', '0', '0', '0'] (by decide) (by decide)
  obtain ⟨r, hr⟩ := h.1.mpr ⟨by decide, by decide, by decide, by decide⟩
  have hv := (h.2.1 r hr).1
  refine ⟨?_, h.2.2⟩
  rw [hr, hv]
  decide

end SDES
